import Mathlib

/-!
# Heartbeat monitor factory: publish configuration

A shallow embedding of `heartbeat/monitors/factory.go`: the publish settings of a
monitor, the index processor built from them (`setupIndexProcessor`) and the
client-config editor returned by `newCommonPublishConfigs`.
-/

namespace Monitors

/-! ## Settings -/

/-- The `datastream` struct of `factory.go`. The Go field `Type` is spelled `Typ`
here because `Type` is reserved. -/
structure datastream where
  Namespace : String
  Dataset : String
  Typ : String
deriving DecidableEq, Repr

/-- The `PublisherPipeline` member of `publishSettings`. -/
structure PublisherPipelineSettings where
  DisableHost : Bool
deriving DecidableEq, Repr

/-- Errors of the package: the ones produced by the collaborators and the wrapped
data-stream error of `setupIndexProcessor`. -/
inductive Error where
  | compile (msg : String)
  | timestampFormat (msg : String)
  | processors (msg : String)
  | unpack (msg : String)
  | put (msg : String)
  | datastream (index : String) (cause : Error)
deriving DecidableEq, Repr

/-! ## Format strings (`libbeat/common/fmtstr`) -/

/-- One element of a compiled format string: literal text or a `%\x7b...\x7d`
expansion. -/
inductive FormatElement where
  | lit (text : List Char)
  | expansion (body : List Char)
deriving DecidableEq, Repr

/-- Modelled from the spec: `fmtstr.EventFormatString` is not among the sources.
An "optional legacy index name-template": the template text and its compiled
form. The zero value (option `index` not configured) has the empty text and no
formatter; a compiled template keeps its text and always has a formatter. -/
structure EventFormatString where
  expression : String
  formatter : Option (List FormatElement)
deriving DecidableEq, Repr

/-- Modelled from the spec: `EventFormatString.IsEmpty` is not among the sources.
The template is empty when it was never set or when its text is the empty string
("compiling an empty index template ... yields no index processor"). -/
def EventFormatString.IsEmpty (fs : EventFormatString) : Bool :=
  fs.formatter.isNone || decide (fs.expression = "")

/-- Literal text collected so far, as a format element (nothing when empty). -/
def litElement (text : List Char) : List FormatElement :=
  if text.isEmpty then [] else [FormatElement.lit text]

/-- Modelled from the spec: the parser of `fmtstr` is not among the sources. A
template is "literal and dynamic segments"; a dynamic segment opens with `%\x7b`
and runs to the next closing brace. The flag tells whether the scan is inside
an expansion, `cur` is the text of the segment being read. An expansion that is
still open at the end of the input is "malformed template syntax". -/
def parseFormat : Bool → List Char → List Char → Except Error (List FormatElement)
  | false, cur, [] => .ok (litElement cur)
  | true, _, [] => .error (.compile "missing closing brace")
  | false, cur, [c] => .ok (litElement (cur ++ [c]))
  | false, cur, c :: d :: rest =>
    if c = '%' ∧ d = '\x7b' then
      (parseFormat true [] rest).map (fun es => litElement cur ++ es)
    else
      parseFormat false (cur ++ [c]) (d :: rest)
  | true, cur, c :: rest =>
    if c = '\x7d' then
      (parseFormat false [] rest).map (fun es => FormatElement.expansion cur :: es)
    else
      parseFormat true (cur ++ [c]) rest

/-- Modelled from the spec: `fmtstr.CompileEvent` (the Format Compiler) is not
among the sources. It yields "a compiled IndexNameTemplate or a compile error
(malformed template syntax)". -/
def CompileEvent (input : String) : Except Error EventFormatString :=
  (parseFormat false [] input.data).map
    (fun es => { expression := input, formatter := some es })

/-- Modelled from the spec: the static "beat-identity fields (name, version)" that
`fmtstr.FieldsForBeat` builds. -/
structure StaticFields where
  name : String
  version : String
deriving DecidableEq, Repr

/-- Modelled from the spec: `fmtstr.FieldsForBeat` is not among the sources. -/
def FieldsForBeat (beat version : String) : StaticFields :=
  { name := beat, version := version }

/-- Modelled from the spec: `fmtstr.TimestampFormatString`, the "compiled,
timestamp-substitutable string template bound to a set of static beat-identity
fields". -/
structure TimestampFormatString where
  eventFormatString : EventFormatString
  fields : StaticFields
deriving DecidableEq, Repr

/-- Modelled from the spec: `fmtstr.NewTimestampFormatString` is not among the
sources. It binds the compiled template to the static fields. -/
def NewTimestampFormatString (fs : EventFormatString) (staticFields : StaticFields) :
    Except Error TimestampFormatString :=
  .ok { eventFormatString := fs, fields := staticFields }

/-! ## Processors (`libbeat/processors`) -/

/-- Modelled from the spec: the processor values of `libbeat/processors` are not
among the sources. A processor is a configured plugin, the "index-stamping
processor" made by `add_formatted_index.New`, or a whole "processor chain" used
as one processor (a `beat.ProcessorList` is itself a `Processor`). -/
inductive Processor where
  | plugin (name : String)
  | addFormattedIndex (ts : TimestampFormatString)
  | list (ps : List Processor)

/-- The `List` slice of a `processors.Processors` value. -/
abbrev Processors := List Processor

/-- Modelled from the spec: `processors.NewList` is not among the sources. It
starts the "ordered list builder" with no processor. -/
def NewList : Processors := []

/-- Modelled from the spec: `Processors.AddProcessor` is not among the sources.
It appends its argument as one processor. -/
def Processors.AddProcessor (procs : Processors) (p : Processor) : Processors :=
  procs ++ [p]

/-- Modelled from the spec: `Processors.AddProcessors` is not among the sources.
It appends the processors of another chain, one by one. -/
def Processors.AddProcessors (procs : Processors) (p : Processors) : Processors :=
  procs ++ p

mutual
/-- The processors that run, in order, when a processor is applied: a list runs
its elements one after the other. -/
def Processor.leaves : Processor → List Processor
  | .plugin n => [.plugin n]
  | .addFormattedIndex ts => [.addFormattedIndex ts]
  | .list ps => leavesList ps
/-- The run order of a slice of processors. -/
def leavesList : List Processor → List Processor
  | [] => []
  | p :: ps => p.leaves ++ leavesList ps
end

/-! ## Publish settings and the index processor -/

/-- The `publishSettings` struct. `EM` is `common.EventMetadata` and `PC` is
`processors.PluginConfig`; neither is inspected by this file. -/
structure publishSettings (EM PC : Type) where
  EventMetadata : EM
  Processors : PC
  PublisherPipeline : PublisherPipelineSettings
  KeepNull : Bool
  Pipeline : String
  Index : EventFormatString
  DataStream : Option datastream
  DataSet : String

/-- The members of `beat.Info` that `setupIndexProcessor` reads. -/
structure Info where
  Beat : String
  Version : String
deriving DecidableEq, Repr

/-- The index name that `setupIndexProcessor` synthesizes from a data-stream
block (lines 155-174): `fmt.Sprintf("%s-%s-%s", typ, dataset, namespace)` after the
three defaults. -/
def datastreamIndex (ds : datastream) : String :=
  let namespace_ := if ds.Namespace = "" then "default" else ds.Namespace
  let typ := if ds.Typ = "" then "synthetics" else ds.Typ
  let dataset := if ds.Dataset = "" then "generic" else ds.Dataset
  typ ++ "-" ++ dataset ++ "-" ++ namespace_

/-- The second half of `setupIndexProcessor` (lines 183-193): wrap a non-empty
index template in the index processor. -/
def indexProcessorOf (info : Info) (index : EventFormatString) :
    Except Error (Option Processor) :=
  if !index.IsEmpty then
    let staticFields := FieldsForBeat info.Beat info.Version
    match NewTimestampFormatString index staticFields with
    | .error err => .error err
    | .ok timestampFormat => .ok (some (Processor.addFormattedIndex timestampFormat))
  else
    .ok none

/-- `setupIndexProcessor`: a data-stream block replaces `settings.Index` by the
compiled synthesized name; then a non-empty `settings.Index` is wrapped in the
index processor. -/
def setupIndexProcessor {EM PC : Type} (info : Info) (settings : publishSettings EM PC) :
    Except Error (Option Processor) :=
  match settings.DataStream with
  | some ds =>
    let index := datastreamIndex ds
    match CompileEvent index with
    | .error err => .error (Error.datastream index err)
    | .ok compiled => indexProcessorOf info { settings with Index := compiled }.Index
  | none => indexProcessorOf info settings.Index

/-! ## Maps (`libbeat/common.MapStr`)

Go maps are references: two variables can name the same map object, and a write
through one is seen through the other. The map objects therefore live in an
explicit store, and a map-valued entry holds the address of its object. -/

/-- A value stored under a key of a map: a plain value, written as a string; a
map (`MapStr` or `map[string]interface{}`), given by the address of its object;
or any other value held by reference (a slice, a `map[string]string`), given by
the address of its elements in the store of shared values. -/
inductive Value where
  | str (s : String)
  | map (ref : Nat)
  | shared (ref : Nat)
deriving DecidableEq, Repr

/-- A map object: its entries, each key at most once. -/
abbrev MapObj := List (String × Value)

/-- The store of map objects; an address is a position in it and a new object
is put at the end. -/
abbrev Heap := List MapObj

/-- A variable of type `common.MapStr`: `nil` or the address of a map object. -/
abbrev MapStr := Option Nat

/-- Read `m[k]` of a map object. -/
def mapGet : MapObj → String → Option Value
  | [], _ => none
  | (k', v') :: rest, k => if k' = k then some v' else mapGet rest k

/-- The object after `m[k] = v`. -/
def mapSet : MapObj → String → Value → MapObj
  | [], k, v => [(k, v)]
  | (k', v') :: rest, k, v =>
    if k' = k then (k, v) :: rest else (k', v') :: mapSet rest k v

/-- Run `m[k] = v` on the object at address `a`. -/
def Heap.store (h : Heap) (a : Nat) (k : String) (v : Value) : Option Heap :=
  match h[a]? with
  | none => none
  | some obj => some (h.set a (mapSet obj k v))

/-- The segments of a key between its dots. -/
def splitDots : List Char → List (List Char)
  | [] => [[]]
  | c :: cs =>
    if c = '.' then [] :: splitDots cs
    else
      match splitDots cs with
      | [] => [[c]]
      | s :: ss => (c :: s) :: ss

/-- The key made of the given segments. -/
def joinDots : List (List Char) → List Char
  | [] => []
  | [s] => s
  | s :: rest => s ++ '.' :: joinDots rest

/-- Modelled from the spec: `mapFind` of `common.MapStr` is not among the
sources. It walks a dotted key such as `event.dataset` down the nested maps and
gives the map object and the key in it where the value belongs. At each level
the rest of the key is first tried as one key; otherwise its first segment must
name a map (made on the way when `createMissing` is set), and finding another
value there is an error. -/
def mapFind (createMissing : Bool) :
    Heap → Nat → List (List Char) → Option (Heap × Except Error (String × Nat))
  | h, data, [] => some (h, .ok ("", data))
  | h, data, [s] => some (h, .ok (String.mk s, data))
  | h, data, s :: s' :: rest =>
    match h[data]? with
    | none => none
    | some obj =>
      let key := String.mk (joinDots (s :: s' :: rest))
      if (mapGet obj key).isSome then some (h, .ok (key, data))
      else
        match mapGet obj (String.mk s) with
        | none =>
          if createMissing then
            let d := h.length
            match Heap.store (h ++ [[]]) data (String.mk s) (.map d) with
            | none => none
            | some h1 => mapFind createMissing h1 d (s' :: rest)
          else some (h, .error (.put "key not found"))
        | some (.map d) => mapFind createMissing h d (s' :: rest)
        | some (.str _) => some (h, .error (.put "expected map but type is string"))
        | some (.shared _) => some (h, .error (.put "expected map but type is slice"))

/-- Modelled from the spec: `MapStr.Put` is not among the sources. It "sets"
the value under a dotted key; the second component is the error it returns. -/
def MapStr.Put (h : Heap) (m : Nat) (key : String) (value : Value) :
    Option (Heap × Option Error) :=
  match mapFind true h m (splitDots key.data) with
  | none => none
  | some (h1, .error err) => some (h1, some err)
  | some (h1, .ok (k, d)) =>
    match Heap.store h1 d k value with
    | none => none
    | some h2 => some (h2, none)

/-- Modelled from the spec: `MapStr.GetValue` is not among the sources. It reads
the value under a dotted key, if there is one. -/
def MapStr.GetValue (h : Heap) (m : Nat) (key : String) : Option Value :=
  match mapFind false h m (splitDots key.data) with
  | some (h1, .ok (k, d)) =>
    match h1[d]? with
    | some obj => mapGet obj k
    | none => none
  | _ => none

/-- The loop of `MapStr.Clone`: copy the entries one by one into the object at
`dst`, a map-valued entry being replaced by its own clone (made by `rec`). Every
other value is copied as it is, so a value held by reference stays shared with
the original. -/
def cloneEntries (rec : Heap → Nat → Option (Heap × Nat)) (dst : Nat) :
    Heap → MapObj → Option Heap
  | h, [] => some h
  | h, (k, .str s) :: rest =>
    match Heap.store h dst k (.str s) with
    | none => none
    | some h1 => cloneEntries rec dst h1 rest
  | h, (k, .shared r) :: rest =>
    match Heap.store h dst k (.shared r) with
    | none => none
    | some h1 => cloneEntries rec dst h1 rest
  | h, (k, .map a) :: rest =>
    match rec h a with
    | none => none
    | some (h1, a') =>
      match Heap.store h1 dst k (.map a') with
      | none => none
      | some h2 => cloneEntries rec dst h2 rest

/-- Modelled from the spec: `MapStr.Clone` on a map object is not among the
sources. It makes a new map and fills it with the entries, cloning inner maps
in turn ("explicit copy-on-write of the metadata/fields containers"). `fuel`
bounds the nesting of the recursion, which does not end on a map that contains
itself. -/
def cloneMap : Nat → Heap → Nat → Option (Heap × Nat)
  | 0, _, _ => none
  | fuel + 1, h, a =>
    match h[a]? with
    | none => none
    | some obj =>
      match cloneEntries (cloneMap fuel) h.length (h ++ [[]]) obj with
      | none => none
      | some h1 => some (h1, h.length)

/-- Modelled from the spec: `MapStr.Clone`. The clone of a `nil` map is a new
empty map. -/
def MapStr.Clone (fuel : Nat) (h : Heap) : MapStr → Option (Heap × Nat)
  | none => some (h ++ [[]], h.length)
  | some a => cloneMap fuel h a

/-! ## The content of a map -/

/-- What a value holds, without the addresses of the map objects: a plain value,
a map given by its entries, or a shared value, which is known by its address. -/
inductive Tree where
  | str (s : String)
  | map (es : List (String × Tree))
  | shared (ref : Nat)

mutual
/-- The nesting depth of a content. -/
def Tree.depth : Tree → Nat
  | .str _ => 0
  | .map es => depthList es + 1
  | .shared _ => 0
/-- The largest depth among the entries. -/
def depthList : List (String × Tree) → Nat
  | [] => 0
  | (_, t) :: es => max t.depth (depthList es)
end

mutual
/-- The value `v` holds the content `t` in the store `h`, and every map object it
is made of has an address of at least `lo`. -/
def Tree.heldBy (lo : Nat) (h : Heap) : Tree → Value → Prop
  | .str s, v => v = .str s
  | .map es, v => ∃ a obj, v = .map a ∧ lo ≤ a ∧ h[a]? = some obj ∧ entriesHeldBy lo h es obj
  | .shared r, v => v = .shared r
/-- The entries of a map object hold the given contents, key by key, each key
once. -/
def entriesHeldBy (lo : Nat) (h : Heap) : List (String × Tree) → MapObj → Prop
  | [], obj => obj = []
  | (k, t) :: es, obj =>
    ∃ v rest, obj = (k, v) :: rest ∧ mapGet rest k = none ∧ t.heldBy lo h v ∧
      entriesHeldBy lo h es rest
end

/-- The entries that a map variable holds; a `nil` map has none. -/
def MapStr.holds (lo : Nat) (h : Heap) (m : MapStr) (es : List (String × Tree)) : Prop :=
  match m with
  | none => es = []
  | some a => (Tree.map es).heldBy lo h (.map a)

/-- The entries after setting key `k` to the content `t`. -/
def setEntry : List (String × Tree) → String → Tree → List (String × Tree)
  | [], k, t => [(k, t)]
  | (k', t') :: rest, k, t =>
    if k' = k then (k, t) :: rest else (k', t') :: setEntry rest k t

/-! ## Shared values and later writes -/

/-- The store of the values held by reference that are not maps: the elements
of each of them. `MapStr.Clone` and `MapStr.Put` never read or write it. -/
abbrev SharedStore := List (List Value)

/-- Replace element `i` of a list. -/
def setElem : List Value → Nat → Value → List Value
  | [], _, _ => []
  | _ :: rest, 0, v => v :: rest
  | x :: rest, i + 1, v => x :: setElem rest i v

/-- Go `m[key][i] = v` for a slice under `key` of the map at address `m`: the
element is written in the store of shared values. -/
def writeElem (h : Heap) (ss : SharedStore) (m : Nat) (key : String) (i : Nat) (v : Value) :
    Option SharedStore :=
  match h[m]? with
  | none => none
  | some obj =>
    match mapGet obj key with
    | some (.shared r) =>
      match ss[r]? with
      | some elems => some (ss.set r (setElem elems i v))
      | none => none
    | _ => none

/-- Go `m[key][i]` for a slice under `key` of the map at address `m`. -/
def readElem (h : Heap) (ss : SharedStore) (m : Nat) (key : String) (i : Nat) : Option Value :=
  match h[m]? with
  | none => none
  | some obj =>
    match mapGet obj key with
    | some (.shared r) =>
      match ss[r]? with
      | some elems => elems[i]?
      | none => none
    | _ => none

/-- A sequence of later writes to maps: each one is a `Put` of a value under a
key of the map at the given address. -/
def putAll : Heap → List (Nat × String × Value) → Option Heap
  | h, [] => some h
  | h, (target, key, value) :: rest =>
    match MapStr.Put h target key value with
    | none => none
    | some (h1, _) => putAll h1 rest

/-! ## The client configuration and its editor -/

/-- The members of `beat.ProcessingConfig` that the editor reads or writes. -/
structure ProcessingConfig (EM : Type) where
  EventMetadata : EM
  Meta : MapStr
  Fields : MapStr
  Processor : Option Processors
  KeepNull : Bool
  DisableHost : Bool

/-- The `beat.ClientConfig` struct: the six members of `Processing` above and, in
`rest`, everything else it carries (the other members of `Processing` and of
`ClientConfig`). -/
structure ClientConfig (EM R : Type) where
  Processing : ProcessingConfig EM
  rest : R

/-- The dataset resolution of `newCommonPublishConfigs` (lines 105-113). -/
def resolveDataset {EM PC : Type} (settings : publishSettings EM PC) : String :=
  let dataset := settings.DataSet
  if dataset = "" then
    match settings.DataStream with
    | some ds => if ds.Dataset ≠ "" then ds.Dataset else "uptime"
    | none => "uptime"
  else
    dataset

/-- The function value returned by `newCommonPublishConfigs`, given by the
variables it closes over. -/
structure ConfigEditor (EM PC : Type) where
  settings : publishSettings EM PC
  indexProcessor : Option Processor
  userProcessors : Option Processors
  dataset : String

/-- `newCommonPublishConfigs`. `Unpack` stands for `cfg.Unpack` and `New` for
`processors.New`, which are not among the sources. -/
def newCommonPublishConfigs {Cfg EM PC : Type}
    (Unpack : Cfg → Except Error (publishSettings EM PC))
    (New : PC → Except Error (Option Processors))
    (info : Info) (cfg : Cfg) : Except Error (ConfigEditor EM PC) :=
  match Unpack cfg with
  | .error err => .error err
  | .ok settings =>
    match setupIndexProcessor info settings with
    | .error err => .error err
    | .ok indexProcessor =>
      match New settings.Processors with
      | .error err => .error err
      | .ok userProcessors =>
        .ok { settings := settings, indexProcessor := indexProcessor,
              userProcessors := userProcessors, dataset := resolveDataset settings }

/-- The processor list assembled by the editor (lines 130-139). -/
def ConfigEditor.assemble {EM PC : Type} (e : ConfigEditor EM PC) (lst : Option Processors) :
    Processors :=
  let procs := NewList
  let procs :=
    match e.indexProcessor with
    | some indexProcessor => procs.AddProcessor indexProcessor
    | none => procs
  let procs :=
    match lst with
    | some lst => procs.AddProcessor (Processor.list lst)
    | none => procs
  match e.userProcessors with
  | some userProcessors => procs.AddProcessors userProcessors
  | none => procs

/-- The body of the editor (lines 115-149), run in the store `h`. The result is
the store afterwards, the edited configuration and the returned error; there is
no result when a clone does not end within `fuel` nested calls. The value
returned by `fields.Put` is dropped, as in the source. -/
def ConfigEditor.edit {EM PC R : Type} (e : ConfigEditor EM PC) (fuel : Nat) (h : Heap)
    (clientCfg : ClientConfig EM R) : Option (Heap × ClientConfig EM R × Option Error) :=
  match MapStr.Clone fuel h clientCfg.Processing.Fields with
  | none => none
  | some (h1, fields) =>
    match MapStr.Put h1 fields "event.dataset" (.str e.dataset) with
    | none => none
    | some (h2, _) =>
      match MapStr.Clone fuel h2 clientCfg.Processing.Meta with
      | none => none
      | some (h3, metadata) =>
        let h4 :=
          if e.settings.Pipeline ≠ "" then
            (MapStr.Put h3 metadata "pipeline" (.str e.settings.Pipeline)).map (fun r => r.1)
          else some h3
        match h4 with
        | none => none
        | some h5 =>
          let procs := e.assemble clientCfg.Processing.Processor
          some (h5,
            { clientCfg with
              Processing :=
                { EventMetadata := e.settings.EventMetadata
                  Fields := some fields
                  Meta := some metadata
                  Processor := some procs
                  KeepNull := e.settings.KeepNull
                  DisableHost := e.settings.PublisherPipeline.DisableHost } },
            none)

/-! ## Properties of the store used in the proofs -/

/-- What a call that clones a map does to the store: the clone is the first new
object and no object that was there before is changed. -/
def ClonesApart (rec : Heap → Nat → Option (Heap × Nat)) : Prop :=
  ∀ h a h' a', rec h a = some (h', a') →
    a' = h.length ∧ h.length < h'.length ∧ ∀ b, b < h.length → h'[b]? = h[b]?

/-- The objects at addresses from `n` on refer only to objects of the store at
addresses from `n` on: nothing made after the store had `n` objects reaches an
older object. -/
def FreshFrom (n : Nat) (h : Heap) : Prop :=
  ∀ (a : Nat) (obj : MapObj), n ≤ a → h[a]? = some obj →
    ∀ (k : String) (b : Nat), (k, Value.map b) ∈ obj → n ≤ b ∧ b < h.length

/-- The map at address `a` is made of its own object, which holds the entries
`es`, and of objects at later addresses only. -/
def OwnsEntries (h : Heap) (a : Nat) (es : List (String × Tree)) : Prop :=
  ∃ obj, h[a]? = some obj ∧ entriesHeldBy (a + 1) h es obj

/-- Read the content under a key of a list of entries. -/
def getEntry : List (String × Tree) → String → Option Tree
  | [], _ => none
  | (k', t') :: rest, k => if k' = k then some t' else getEntry rest k

/-! ## Sample values -/

/-- Sample beat identity. -/
def sampleInfo : Info := { Beat := "heartbeat", Version := "7.10.0" }

/-- Sample settings: both `dataset` options, a data-stream block, an ingest
pipeline and a legacy index template. Event metadata is a string here. -/
def sampleSettings : publishSettings String Unit :=
  { EventMetadata := "monitor-tags"
    Processors := ()
    PublisherPipeline := { DisableHost := true }
    KeepNull := true
    Pipeline := "ingest-a"
    Index :=
      { expression := "legacy-index"
        formatter := some [FormatElement.lit "legacy-index".data] }
    DataStream := some { Namespace := "", Dataset := "custom", Typ := "" }
    DataSet := "legacy" }

/-- Sample `cfg.Unpack`: the raw configuration is the settings themselves. -/
def sampleUnpack (cfg : publishSettings String Unit) :
    Except Error (publishSettings String Unit) :=
  .ok cfg

/-- Sample `processors.New`: one user processor `B`. -/
def sampleNew (_ : Unit) : Except Error (Option Processors) :=
  .ok (some [Processor.plugin "B"])

/-- The index processor that the sample settings give. -/
def sampleIndexProcessor : Processor :=
  Processor.addFormattedIndex
    { eventFormatString :=
        { expression := "synthetics-custom-default"
          formatter := some [FormatElement.lit "synthetics-custom-default".data] }
      fields := { name := "heartbeat", version := "7.10.0" } }

/-- The editor made from the sample settings. -/
def sampleEditor : ConfigEditor String Unit :=
  { settings := sampleSettings
    indexProcessor := some sampleIndexProcessor
    userProcessors := some [Processor.plugin "B"]
    dataset := "legacy" }

/-- A sample store: a fields map with a nested `event` map, at addresses 0 and 1,
and a metadata map at address 2. -/
def sampleHeap : Heap :=
  [[("event", .map 1), ("host", .str "h1")], [("dataset", .str "old")],
   [("pipeline", .str "p0"), ("kind", .str "m")]]

/-- The entries of the sample fields map. -/
def sampleFields : List (String × Tree) :=
  [("event", .map [("dataset", .str "old")]), ("host", .str "h1")]

/-- The entries of the sample metadata map. -/
def sampleMeta : List (String × Tree) :=
  [("pipeline", .str "p0"), ("kind", .str "m")]

/-- A sample inbound configuration over the sample store, with the inbound
processor chain `[A]`. -/
def sampleClientCfg : ClientConfig String Nat :=
  { Processing :=
      { EventMetadata := "inbound-tags"
        Meta := some 2
        Fields := some 0
        Processor := some [Processor.plugin "A"]
        KeepNull := false
        DisableHost := false }
    rest := 7 }

/-- A store with one fields map that has a plain value under the key `event`. -/
def plainEventHeap : Heap := [[("event", .str "x")]]

/-- An inbound configuration whose fields map is the one of `plainEventHeap`. -/
def plainEventCfg : ClientConfig String Nat :=
  { Processing :=
      { EventMetadata := "inbound-tags"
        Meta := none
        Fields := some 0
        Processor := none
        KeepNull := false
        DisableHost := false }
    rest := 7 }

/-- Settings whose data-stream dataset opens a format expansion without closing
it. -/
def openExpansionSettings : publishSettings String Unit :=
  { sampleSettings with
    DataStream := some { Namespace := "", Dataset := "%\x7b", Typ := "" } }

/-- Sample settings without data-stream block and without legacy index
template. -/
def noIndexSettings : publishSettings String Unit :=
  { sampleSettings with
    Index := { expression := "", formatter := none }
    DataStream := none }

/-- Sample settings with the legacy index template `legacy-index` and without
data-stream block. -/
def legacyIndexSettings : publishSettings String Unit :=
  { sampleSettings with DataStream := none }

/-- The editor made from `noIndexSettings`. -/
def noIndexEditor : ConfigEditor String Unit :=
  { settings := noIndexSettings
    indexProcessor := none
    userProcessors := some [Processor.plugin "B"]
    dataset := "legacy" }

/-! ## The runner factory -/

/-- The `RunnerFactory` struct; `S` is `scheduler.Scheduler`, held by pointer. -/
structure RunnerFactory (S : Type) where
  info : Info
  sched : Option S
  allowWatches : Bool

/-- The calls that `Create` makes to its collaborators, in the order made. -/
inductive Collaborator where
  | WithClientConfigEdit
  | newMonitor
deriving DecidableEq, Repr

/-- `RunnerFactory.Create`. The result is the returned pair (runner, error)
and the collaborator calls made. `WithClientConfigEdit` stands for
`pipetool.WithClientConfigEdit` and `newMonitor` for the monitor constructor
(with the global plugin registry), which are not among the sources; `P` is
`beat.Pipeline` and `M` the monitor. -/
def RunnerFactory.Create {Cfg EM PC P S M : Type}
    (Unpack : Cfg → Except Error (publishSettings EM PC))
    (New : PC → Except Error (Option Processors))
    (WithClientConfigEdit : P → ConfigEditor EM PC → P)
    (newMonitor : Cfg → Option P → Option S → Bool → Option M × Option Error)
    (f : RunnerFactory S) (p : P) (c : Cfg) :
    (Option M × Option Error) × List Collaborator :=
  match newCommonPublishConfigs Unpack New f.info c with
  | .error err => ((none, some err), [])
  | .ok configEditor =>
    let p := WithClientConfigEdit p configEditor
    let (monitor, err) := newMonitor c (some p) f.sched f.allowWatches
    ((monitor, err), [Collaborator.WithClientConfigEdit, Collaborator.newMonitor])

/-- Modelled from the spec: `checkMonitorConfig` is not among the sources. It
"performs the same validation path as monitor construction (config schema +
plugin lookup) without starting anything": the monitor is constructed on no
pipeline and no scheduler, and only the error of the construction is kept. -/
def checkMonitorConfig {Cfg P S M : Type}
    (newMonitor : Cfg → Option P → Option S → Bool → Option M × Option Error)
    (config : Cfg) (allowWatches : Bool) : Option Error :=
  (newMonitor config none none allowWatches).2

/-- `RunnerFactory.CheckConfig`. -/
def RunnerFactory.CheckConfig {Cfg P S M : Type}
    (newMonitor : Cfg → Option P → Option S → Bool → Option M × Option Error)
    (f : RunnerFactory S) (config : Cfg) : Option Error :=
  checkMonitorConfig newMonitor config f.allowWatches

/-- Sample factory. -/
def sampleFactory : RunnerFactory Unit :=
  { info := sampleInfo, sched := some (), allowWatches := false }

/-- Sample pipeline wrapper: a pipeline is the list of the datasets of the
editors installed on it. -/
def sampleWithClientConfigEdit (p : List String) (e : ConfigEditor String Unit) : List String :=
  e.dataset :: p

/-- Sample monitor constructor: it checks the config schema only (here: a
non-empty event metadata) and does not look at the `processors` setting. -/
def sampleNewMonitor (c : publishSettings String Unit) (_ : Option (List String))
    (_ : Option Unit) (_ : Bool) : Option String × Option Error :=
  if c.EventMetadata = "" then (none, some (Error.unpack "missing monitor fields"))
  else (some "monitor", none)

/-- Sample `cfg.Unpack` that fails. -/
def failingUnpack (_ : publishSettings String Unit) :
    Except Error (publishSettings String Unit) :=
  .error (Error.unpack "wrong type")

/-- Sample `processors.New` for an invalid `processors` setting. -/
def failingNew (_ : Unit) : Except Error (Option Processors) :=
  .error (Error.processors "unknown processor")

/-- What `event.dataset` reads in the fields map that the editor returns, given
the entries of the inbound fields map: the dataset, unless the inbound map has a
value that is not a map under `event` and no key `event.dataset` of its own. -/
def eventDatasetAfter (fes : List (String × Tree)) (dataset : String) : Option Value :=
  if (getEntry fes "event.dataset").isSome then some (.str dataset)
  else
    match getEntry fes "event" with
    | some (.str _) => none
    | some (.shared _) => none
    | _ => some (.str dataset)

/-- Sample settings with a data-stream block whose fields are all empty and an
empty legacy `dataset`. -/
def emptyDatasetSettings : publishSettings String Unit :=
  { sampleSettings with
    DataStream := some { Namespace := "", Dataset := "", Typ := "" }
    DataSet := "" }

/-- The editor made from `emptyDatasetSettings`. -/
def emptyDatasetEditor : ConfigEditor String Unit :=
  { settings := emptyDatasetSettings
    indexProcessor := some (Processor.addFormattedIndex
      { eventFormatString :=
          { expression := "synthetics-generic-default"
            formatter := some [FormatElement.lit "synthetics-generic-default".data] }
        fields := { name := "heartbeat", version := "7.10.0" } })
    userProcessors := some [Processor.plugin "B"]
    dataset := "uptime" }

/-- An editor without index processor and with an empty user chain. -/
def bareEditor : ConfigEditor String Unit :=
  { settings := noIndexSettings
    indexProcessor := none
    userProcessors := some []
    dataset := "legacy" }

/-- A store with one fields map that holds a slice under `tags`. -/
def sharedHeap : Heap := [[("tags", .shared 0)]]

/-- The store of shared values that goes with `sharedHeap`: one slice with the
element `a`. -/
def sharedStore : SharedStore := [[.str "a"]]

/-- An inbound configuration whose fields map is the one of `sharedHeap`. -/
def sharedCfg : ClientConfig String Nat :=
  { Processing :=
      { EventMetadata := "inbound-tags"
        Meta := none
        Fields := some 0
        Processor := none
        KeepNull := false
        DisableHost := false }
    rest := 7 }

/-! ## Map objects and the store -/

theorem mapGet_mapSet_self (obj : MapObj) (k : String) (v : Value) :
    mapGet (mapSet obj k v) k = some v := by
  induction obj with
  | nil => simp [mapSet, mapGet]
  | cons p rest ih =>
    obtain ⟨k', v'⟩ := p
    by_cases hk : k' = k
    · simp [mapSet, mapGet, hk]
    · simp [mapSet, mapGet, hk, ih]

theorem mapGet_mapSet_ne (obj : MapObj) (k k' : String) (v : Value) (hne : k' ≠ k) :
    mapGet (mapSet obj k v) k' = mapGet obj k' := by
  induction obj with
  | nil => simp [mapSet, mapGet, Ne.symm hne]
  | cons p rest ih =>
    obtain ⟨k'', v''⟩ := p
    by_cases hk : k'' = k
    · subst hk
      simp [mapSet, mapGet, Ne.symm hne]
    · by_cases hk' : k'' = k'
      · subst hk'
        simp [mapSet, mapGet, hk]
      · simp [mapSet, mapGet, hk, hk', ih]

theorem mapSet_of_mapGet_none (obj : MapObj) (k : String) (v : Value)
    (hnone : mapGet obj k = none) : mapSet obj k v = obj ++ [(k, v)] := by
  induction obj with
  | nil => simp [mapSet]
  | cons p rest ih =>
    obtain ⟨k', v'⟩ := p
    by_cases hk : k' = k
    · simp [mapGet, hk] at hnone
    · simp [mapGet, hk] at hnone
      simp [mapSet, hk, ih hnone]

theorem mem_mapSet (obj : MapObj) (k : String) (v : Value) (p : String × Value)
    (hp : p ∈ mapSet obj k v) : p ∈ obj ∨ p = (k, v) := by
  induction obj with
  | nil => simpa [mapSet] using hp
  | cons q rest ih =>
    obtain ⟨k', v'⟩ := q
    by_cases hk : k' = k
    · simp [mapSet, hk] at hp
      rcases hp with hp | hp
      · exact Or.inr hp
      · exact Or.inl (List.mem_cons_of_mem _ hp)
    · simp [mapSet, hk] at hp
      rcases hp with hp | hp
      · exact Or.inl (by simp [hp])
      · rcases ih hp with h1 | h1
        · exact Or.inl (List.mem_cons_of_mem _ h1)
        · exact Or.inr h1

theorem mem_of_mapGet (obj : MapObj) (k : String) (v : Value)
    (hget : mapGet obj k = some v) : (k, v) ∈ obj := by
  induction obj with
  | nil => simp [mapGet] at hget
  | cons q rest ih =>
    obtain ⟨k', v'⟩ := q
    by_cases hk : k' = k
    · simp [mapGet, hk] at hget
      simp [hk, hget]
    · simp [mapGet, hk] at hget
      exact List.mem_cons_of_mem _ (ih hget)

theorem store_eq_some (h h' : Heap) (a : Nat) (k : String) (v : Value)
    (hst : Heap.store h a k v = some h') :
    ∃ obj, h[a]? = some obj ∧ h' = h.set a (mapSet obj k v) := by
  unfold Heap.store at hst
  cases hobj : h[a]? with
  | none => simp [hobj] at hst
  | some obj =>
    simp [hobj] at hst
    exact ⟨obj, rfl, hst.symm⟩

theorem store_of_get (h : Heap) (a : Nat) (k : String) (v : Value) (obj : MapObj)
    (hobj : h[a]? = some obj) : Heap.store h a k v = some (h.set a (mapSet obj k v)) := by
  simp [Heap.store, hobj]

theorem get_set_self (h : Heap) (a : Nat) (obj obj' : MapObj) (hobj : h[a]? = some obj) :
    (h.set a obj')[a]? = some obj' := by
  have hlt : a < h.length := by
    rcases List.getElem?_eq_some.mp hobj with ⟨hlt, _⟩
    exact hlt
  simp [List.getElem?_set_self hlt]

theorem get_set_ne (h : Heap) (a b : Nat) (obj' : MapObj) (hne : b ≠ a) :
    (h.set a obj')[b]? = h[b]? := by
  simp [List.getElem?_set_ne (Ne.symm hne)]

theorem lt_length_of_get (h : Heap) (a : Nat) (obj : MapObj) (hobj : h[a]? = some obj) :
    a < h.length := by
  rcases List.getElem?_eq_some.mp hobj with ⟨hlt, _⟩
  exact hlt

theorem get_append_new (h : Heap) (b : Nat) (hlt : b < h.length) :
    (h ++ [([] : MapObj)])[b]? = h[b]? :=
  List.getElem?_append_left hlt

theorem get_append_last (h : Heap) : (h ++ [([] : MapObj)])[h.length]? = some [] :=
  List.getElem?_concat_length h []

/-! ## Contents -/

theorem heldBy_str (lo : Nat) (h : Heap) (s : String) (v : Value) :
    (Tree.str s).heldBy lo h v ↔ v = .str s := by
  simp [Tree.heldBy]

theorem heldBy_map (lo : Nat) (h : Heap) (es : List (String × Tree)) (v : Value) :
    (Tree.map es).heldBy lo h v ↔
      ∃ a obj, v = .map a ∧ lo ≤ a ∧ h[a]? = some obj ∧
        entriesHeldBy lo h es obj := by
  simp [Tree.heldBy]

theorem heldBy_shared (lo : Nat) (h : Heap) (r : Nat) (v : Value) :
    (Tree.shared r).heldBy lo h v ↔ v = .shared r := by
  simp [Tree.heldBy]

theorem entriesHeldBy_nil (lo : Nat) (h : Heap) (obj : MapObj) :
    entriesHeldBy lo h [] obj ↔ obj = [] := by
  simp [entriesHeldBy]

theorem entriesHeldBy_cons (lo : Nat) (h : Heap) (k : String) (t : Tree)
    (es : List (String × Tree)) (obj : MapObj) :
    entriesHeldBy lo h ((k, t) :: es) obj ↔
      ∃ v rest, obj = (k, v) :: rest ∧ mapGet rest k = none ∧ t.heldBy lo h v ∧
        entriesHeldBy lo h es rest := by
  simp [entriesHeldBy]

mutual
theorem heldBy_mono (lo lo' : Nat) (h h' : Heap) (hlo : lo' ≤ lo)
    (hext : ∀ a obj, lo ≤ a → h[a]? = some obj → h'[a]? = some obj) :
    ∀ (t : Tree) (v : Value), t.heldBy lo h v → t.heldBy lo' h' v
  | .str s, v, hv => by
    rw [heldBy_str] at hv ⊢
    exact hv
  | .map es, v, hv => by
    rw [heldBy_map] at hv ⊢
    obtain ⟨a, obj, hva, hla, hobj, hes⟩ := hv
    exact ⟨a, obj, hva, Nat.le_trans hlo hla, hext a obj hla hobj,
      entriesHeldBy_mono lo lo' h h' hlo hext es obj hes⟩
  | .shared r, v, hv => by
    rw [heldBy_shared] at hv ⊢
    exact hv
theorem entriesHeldBy_mono (lo lo' : Nat) (h h' : Heap) (hlo : lo' ≤ lo)
    (hext : ∀ a obj, lo ≤ a → h[a]? = some obj → h'[a]? = some obj) :
    ∀ (es : List (String × Tree)) (obj : MapObj),
      entriesHeldBy lo h es obj → entriesHeldBy lo' h' es obj
  | [], obj, hes => by
    rw [entriesHeldBy_nil] at hes ⊢
    exact hes
  | (k, t) :: es, obj, hes => by
    rw [entriesHeldBy_cons] at hes ⊢
    obtain ⟨v, rest, hobj, hnone, ht, hrest⟩ := hes
    exact ⟨v, rest, hobj, hnone, heldBy_mono lo lo' h h' hlo hext t v ht,
      entriesHeldBy_mono lo lo' h h' hlo hext es rest hrest⟩
end

theorem depth_le_depthList (es : List (String × Tree)) (k : String) (t : Tree)
    (hmem : (k, t) ∈ es) : t.depth ≤ depthList es := by
  induction es with
  | nil => simp at hmem
  | cons p rest ih =>
    obtain ⟨k', t'⟩ := p
    simp only [depthList]
    rcases List.mem_cons.mp hmem with heq | hin
    · have : t = t' := by
        have := congrArg Prod.snd heq
        simpa using this
      subst this
      exact Nat.le_max_left _ _
    · exact Nat.le_trans (ih hin) (Nat.le_max_right _ _)

theorem mapGet_eq_none_iff (obj : MapObj) (k : String) :
    mapGet obj k = none ↔ k ∉ obj.map Prod.fst := by
  induction obj with
  | nil => simp [mapGet]
  | cons p rest ih =>
    obtain ⟨k', v'⟩ := p
    by_cases hk : k' = k
    · simp [mapGet, hk]
    · simp [mapGet, hk, ih, Ne.symm hk]

theorem keys_of_entriesHeldBy (lo : Nat) (h : Heap) :
    ∀ (es : List (String × Tree)) (obj : MapObj),
      entriesHeldBy lo h es obj → obj.map Prod.fst = es.map Prod.fst
  | [], obj, hes => by
    rw [entriesHeldBy_nil] at hes
    simp [hes]
  | (k, t) :: es, obj, hes => by
    rw [entriesHeldBy_cons] at hes
    obtain ⟨v, rest, hobj, _, _, hrest⟩ := hes
    simp [hobj, keys_of_entriesHeldBy lo h es rest hrest]

/-! ## Cloning: what it leaves alone -/

theorem cloneEntries_frame (rec : Heap → Nat → Option (Heap × Nat)) (hrec : ClonesApart rec)
    (dst : Nat) : ∀ (obj : MapObj) (h h' : Heap), cloneEntries rec dst h obj = some h' →
      h.length ≤ h'.length ∧ ∀ b, b < h.length → b ≠ dst → h'[b]? = h[b]?
  | [], h, h', hc => by
    simp [cloneEntries] at hc
    subst hc
    exact ⟨Nat.le_refl _, fun _ _ _ => rfl⟩
  | (k, .str s) :: rest, h, h', hc => by
    simp only [cloneEntries] at hc
    cases hst : Heap.store h dst k (.str s) with
    | none => simp [hst] at hc
    | some h1 =>
      simp only [hst] at hc
      obtain ⟨obj0, _, h1eq⟩ := store_eq_some h h1 dst k _ hst
      have hlen : h1.length = h.length := by simp [h1eq]
      have ih := cloneEntries_frame rec hrec dst rest h1 h' hc
      refine ⟨by omega, fun b hb hne => ?_⟩
      rw [ih.2 b (by omega) hne, h1eq, get_set_ne h dst b _ hne]
  | (k, .shared r) :: rest, h, h', hc => by
    simp only [cloneEntries] at hc
    cases hst : Heap.store h dst k (.shared r) with
    | none => simp [hst] at hc
    | some h1 =>
      simp only [hst] at hc
      obtain ⟨obj0, _, h1eq⟩ := store_eq_some h h1 dst k _ hst
      have hlen : h1.length = h.length := by simp [h1eq]
      have ih := cloneEntries_frame rec hrec dst rest h1 h' hc
      refine ⟨by omega, fun b hb hne => ?_⟩
      rw [ih.2 b (by omega) hne, h1eq, get_set_ne h dst b _ hne]
  | (k, .map a) :: rest, h, h', hc => by
    simp only [cloneEntries] at hc
    cases hr : rec h a with
    | none => simp [hr] at hc
    | some r =>
      obtain ⟨h1, a'⟩ := r
      simp only [hr] at hc
      cases hst : Heap.store h1 dst k (.map a') with
      | none => simp [hst] at hc
      | some h2 =>
        simp only [hst] at hc
        obtain ⟨_, hlt, hfr⟩ := hrec h a h1 a' hr
        obtain ⟨obj0, _, h2eq⟩ := store_eq_some h1 h2 dst k _ hst
        have hlen : h2.length = h1.length := by simp [h2eq]
        have ih := cloneEntries_frame rec hrec dst rest h2 h' hc
        refine ⟨by omega, fun b hb hne => ?_⟩
        rw [ih.2 b (by omega) hne, h2eq, get_set_ne h1 dst b _ hne, hfr b hb]

theorem cloneMap_frame : ∀ fuel : Nat, ClonesApart (cloneMap fuel)
  | 0 => by
    intro h a h' a' hc
    simp [cloneMap] at hc
  | fuel + 1 => by
    intro h a h' a' hc
    simp only [cloneMap] at hc
    cases hobj : h[a]? with
    | none => simp [hobj] at hc
    | some obj =>
      simp only [hobj] at hc
      cases hce : cloneEntries (cloneMap fuel) h.length (h ++ [[]]) obj with
      | none => simp [hce] at hc
      | some h1 =>
        simp only [hce, Option.some.injEq, Prod.mk.injEq] at hc
        obtain ⟨h1eq, aeq⟩ := hc
        subst h1eq
        have hfr := cloneEntries_frame (cloneMap fuel) (cloneMap_frame fuel) h.length obj
          (h ++ [[]]) h1 hce
        have hlen : (h ++ [([] : MapObj)]).length = h.length + 1 := by simp
        refine ⟨aeq.symm, by omega, fun b hb => ?_⟩
        rw [hfr.2 b (by omega) (by omega), get_append_new h b hb]

theorem Clone_frame (fuel : Nat) (h h' : Heap) (m : MapStr) (a' : Nat)
    (hc : MapStr.Clone fuel h m = some (h', a')) :
    a' = h.length ∧ h.length < h'.length ∧ ∀ b, b < h.length → h'[b]? = h[b]? := by
  cases m with
  | none =>
    simp only [MapStr.Clone, Option.some.injEq, Prod.mk.injEq] at hc
    obtain ⟨h1eq, aeq⟩ := hc
    subst h1eq
    exact ⟨aeq.symm, by simp, fun b hb => get_append_new h b hb⟩
  | some a => exact cloneMap_frame fuel h a h' a' hc

/-! ## Cloning: the content of the clone -/

theorem cloneEntries_content (rec : Heap → Nat → Option (Heap × Nat)) (hfr : ClonesApart rec)
    (lo0 : Nat) (h0 : Heap) (dst : Nat) (hdst : h0.length ≤ dst) :
    ∀ (es : List (String × Tree)) (obj : MapObj) (h : Heap) (pre : MapObj),
      entriesHeldBy lo0 h0 es obj →
      (∀ k es', (k, Tree.map es') ∈ es → ∀ hh a, (Tree.map es').heldBy lo0 hh (.map a) →
        ∃ h', rec hh a = some (h', hh.length) ∧
          (Tree.map es').heldBy hh.length h' (.map hh.length)) →
      (∀ (a : Nat) (o : MapObj), h0[a]? = some o → h[a]? = some o) →
      h[dst]? = some pre →
      (∀ k, k ∈ es.map Prod.fst → mapGet pre k = none) →
      ∃ h' new, cloneEntries rec dst h obj = some h' ∧ h'[dst]? = some (pre ++ new) ∧
        entriesHeldBy (dst + 1) h' es new
  | [], obj, h, pre, hes, _, _, hpre, _ => by
    rw [entriesHeldBy_nil] at hes
    subst hes
    refine ⟨h, [], by simp [cloneEntries], by simpa using hpre, ?_⟩
    rw [entriesHeldBy_nil]
  | (k, t) :: es, obj, h, pre, hes, hrec, hext, hpre, hkeys => by
    rw [entriesHeldBy_cons] at hes
    obtain ⟨v, rest, hobj, hnone, ht, hrest⟩ := hes
    subst hobj
    have hdlt : dst < h.length := lt_length_of_get h dst pre hpre
    have hknot : k ∉ es.map Prod.fst := by
      rw [← keys_of_entriesHeldBy lo0 h0 es rest hrest]
      exact (mapGet_eq_none_iff rest k).mp hnone
    have hprek : mapGet pre k = none := hkeys k (by simp)
    have hrec' : ∀ k' es', (k', Tree.map es') ∈ es → ∀ hh a,
        (Tree.map es').heldBy lo0 hh (.map a) →
        ∃ h', rec hh a = some (h', hh.length) ∧
          (Tree.map es').heldBy hh.length h' (.map hh.length) :=
      fun k' es' hm => hrec k' es' (List.mem_cons_of_mem _ hm)
    have hkeys' : ∀ v', ∀ k', k' ∈ es.map Prod.fst → mapGet (mapSet pre k v') k' = none := by
      intro v' k' hk'
      have hne : k' ≠ k := fun e => hknot (e ▸ hk')
      rw [mapGet_mapSet_ne pre k k' v' hne]
      exact hkeys k' (by simp [List.mem_map] at hk' ⊢; exact Or.inr hk')
    -- the value to copy, its copy `v'` and the store `h1` after making the copy
    have hcopy : ∃ h1 v', (∀ b, b < h.length → h1[b]? = h[b]?) ∧ h.length ≤ h1.length ∧
        t.heldBy h.length h1 v' ∧
        cloneEntries rec dst h ((k, v) :: rest) =
          (Heap.store h1 dst k v').bind (fun h2 => cloneEntries rec dst h2 rest) := by
      cases t with
      | str s =>
        rw [heldBy_str] at ht
        subst ht
        refine ⟨h, .str s, fun _ _ => rfl, Nat.le_refl _, (heldBy_str _ _ _ _).mpr rfl, ?_⟩
        simp only [cloneEntries]
        cases Heap.store h dst k (.str s) <;> rfl
      | shared r =>
        rw [heldBy_shared] at ht
        subst ht
        refine ⟨h, .shared r, fun _ _ => rfl, Nat.le_refl _, (heldBy_shared _ _ _ _).mpr rfl, ?_⟩
        simp only [cloneEntries]
        cases Heap.store h dst k (.shared r) <;> rfl
      | map es' =>
        have ht0 := ht
        rw [heldBy_map] at ht
        obtain ⟨a, o, hva, _, _, _⟩ := ht
        subst hva
        have hth : (Tree.map es').heldBy lo0 h (.map a) :=
          heldBy_mono lo0 lo0 h0 h (Nat.le_refl _) (fun a o _ ho => hext a o ho) _ _ ht0
        obtain ⟨h1, hr, hheld⟩ := hrec k es' (by simp) h a hth
        obtain ⟨_, hlt, hfr1⟩ := hfr h a h1 h.length hr
        refine ⟨h1, .map h.length, hfr1, Nat.le_of_lt hlt, hheld, ?_⟩
        simp only [cloneEntries, hr]
        cases Heap.store h1 dst k (.map h.length) <;> rfl
    obtain ⟨h1, v', hfr1, hlen1, hheld, hstep⟩ := hcopy
    have hpre1 : h1[dst]? = some pre := by rw [hfr1 dst hdlt]; exact hpre
    have hst : Heap.store h1 dst k v' = some (h1.set dst (mapSet pre k v')) :=
      store_of_get h1 dst k v' pre hpre1
    have hext2 : ∀ (a : Nat) (o : MapObj), h0[a]? = some o → (h1.set dst (mapSet pre k v'))[a]? = some o := by
      intro a o ho
      have halt : a < h0.length := lt_length_of_get h0 a o ho
      rw [get_set_ne h1 dst a _ (by omega), hfr1 a (by omega)]
      exact hext a o ho
    have hpre2 : (h1.set dst (mapSet pre k v'))[dst]? = some (mapSet pre k v') :=
      get_set_self h1 dst pre _ hpre1
    obtain ⟨h', new, hce, hdst', hnew⟩ :=
      cloneEntries_content rec hfr lo0 h0 dst hdst es rest (h1.set dst (mapSet pre k v'))
        (mapSet pre k v') hrest hrec' hext2 hpre2 (hkeys' v')
    have hfr2 := cloneEntries_frame rec hfr dst rest _ h' hce
    refine ⟨h', (k, v') :: new, ?_, ?_, ?_⟩
    · rw [hstep, hst]
      exact hce
    · rw [hdst', mapSet_of_mapGet_none pre k v' hprek]
      simp
    · rw [entriesHeldBy_cons]
      refine ⟨v', new, rfl, ?_, ?_, hnew⟩
      · rw [mapGet_eq_none_iff, keys_of_entriesHeldBy _ _ es new hnew]
        exact hknot
      · refine heldBy_mono h.length (dst + 1) h1 h' (by omega) ?_ t v' hheld
        intro a o hla ho
        have halt : a < h1.length := lt_length_of_get h1 a o ho
        rw [hfr2.2 a (by simpa using halt) (by omega), get_set_ne h1 dst a _ (by omega)]
        exact ho

theorem cloneMap_content : ∀ (fuel lo : Nat) (es : List (String × Tree)) (h : Heap) (a : Nat),
    (Tree.map es).heldBy lo h (.map a) → (Tree.map es).depth ≤ fuel →
    ∃ h' obj', cloneMap fuel h a = some (h', h.length) ∧ h'[h.length]? = some obj' ∧
      entriesHeldBy (h.length + 1) h' es obj'
  | 0, lo, es, h, a, _, hdepth => by
    simp [Tree.depth] at hdepth
  | fuel + 1, lo, es, h, a, hheld, hdepth => by
    rw [heldBy_map] at hheld
    obtain ⟨a0, obj, hva, _, hobj, hes⟩ := hheld
    have ha : a = a0 := by injection hva
    subst ha
    have hdl : depthList es ≤ fuel := by
      simp only [Tree.depth] at hdepth
      omega
    have hrec : ∀ k es', (k, Tree.map es') ∈ es → ∀ hh b,
        (Tree.map es').heldBy lo hh (.map b) →
        ∃ h', cloneMap fuel hh b = some (h', hh.length) ∧
          (Tree.map es').heldBy hh.length h' (.map hh.length) := by
      intro k es' hm hh b hb
      have hd : (Tree.map es').depth ≤ fuel :=
        Nat.le_trans (depth_le_depthList es k _ hm) hdl
      obtain ⟨h', obj', hc, ho, he⟩ := cloneMap_content fuel lo es' hh b hb hd
      refine ⟨h', hc, ?_⟩
      rw [heldBy_map]
      refine ⟨hh.length, obj', rfl, Nat.le_refl _, ho, ?_⟩
      exact entriesHeldBy_mono (hh.length + 1) hh.length h' h' (by omega)
        (fun _ _ _ hx => hx) es' obj' he
    have hext : ∀ (b : Nat) (o : MapObj), h[b]? = some o → (h ++ [([] : MapObj)])[b]? = some o := by
      intro b o ho
      rw [get_append_new h b (lt_length_of_get h b o ho)]
      exact ho
    obtain ⟨h', new, hce, hdst, hnew⟩ :=
      cloneEntries_content (cloneMap fuel) (cloneMap_frame fuel) lo h h.length (Nat.le_refl _)
        es obj (h ++ [[]]) [] hes hrec hext (get_append_last h) (fun _ _ => by simp [mapGet])
    refine ⟨h', new, ?_, by simpa using hdst, hnew⟩
    simp only [cloneMap, hobj, hce]

/-! ## The new part of the store -/

theorem freshFrom_length (h : Heap) : FreshFrom h.length h := by
  intro a obj hla hobj
  have := lt_length_of_get h a obj hobj
  omega

theorem freshFrom_set (n : Nat) (h : Heap) (a : Nat) (obj : MapObj) (k : String) (v : Value)
    (hf : FreshFrom n h) (hobj : h[a]? = some obj)
    (hv : ∀ b, v = .map b → n ≤ b ∧ b < h.length) :
    FreshFrom n (h.set a (mapSet obj k v)) := by
  intro c o hlc ho k' b hmem
  rw [List.length_set]
  by_cases hca : c = a
  · subst hca
    rw [get_set_self h c obj _ hobj] at ho
    have ho' : mapSet obj k v = o := by injection ho
    subst ho'
    rcases mem_mapSet obj k v _ hmem with hin | heq
    · exact hf c obj hlc hobj k' b hin
    · have hvb : Value.map b = v := by
        have := congrArg Prod.snd heq
        simpa using this
      exact hv b hvb.symm
  · rw [get_set_ne h a c _ hca] at ho
    exact hf c o hlc ho k' b hmem

theorem freshFrom_append (n : Nat) (h : Heap) (hf : FreshFrom n h) :
    FreshFrom n (h ++ [([] : MapObj)]) := by
  intro c o hlc ho k' b hmem
  by_cases hc : c < h.length
  · rw [get_append_new h c hc] at ho
    have := hf c o hlc ho k' b hmem
    simp only [List.length_append, List.length_singleton]
    omega
  · have hlen := lt_length_of_get _ c o ho
    simp at hlen
    have hce : c = h.length := by omega
    subst hce
    rw [get_append_last h] at ho
    have ho' : ([] : MapObj) = o := by injection ho
    subst ho'
    simp at hmem

theorem freshFrom_store (n : Nat) (h h' : Heap) (a : Nat) (k : String) (v : Value)
    (hf : FreshFrom n h) (hst : Heap.store h a k v = some h')
    (hv : ∀ b, v = .map b → n ≤ b ∧ b < h.length) : FreshFrom n h' := by
  obtain ⟨obj, hobj, heq⟩ := store_eq_some h h' a k v hst
  subst heq
  exact freshFrom_set n h a obj k v hf hobj hv

theorem store_frame (h h' : Heap) (a : Nat) (k : String) (v : Value)
    (hst : Heap.store h a k v = some h') :
    h'.length = h.length ∧ ∀ b, b ≠ a → h'[b]? = h[b]? := by
  obtain ⟨obj, _, heq⟩ := store_eq_some h h' a k v hst
  subst heq
  exact ⟨by simp, fun b hb => get_set_ne h a b _ hb⟩

theorem cloneEntries_fresh (n : Nat) (rec : Heap → Nat → Option (Heap × Nat))
    (hfr : ClonesApart rec)
    (hrec : ∀ h a h' a', n ≤ h.length → FreshFrom n h → rec h a = some (h', a') →
      FreshFrom n h')
    (dst : Nat) : ∀ (obj : MapObj) (h h' : Heap), n ≤ h.length → FreshFrom n h →
      cloneEntries rec dst h obj = some h' → FreshFrom n h'
  | [], h, h', _, hf, hc => by
    simp [cloneEntries] at hc
    subst hc
    exact hf
  | (k, .str s) :: rest, h, h', hn, hf, hc => by
    simp only [cloneEntries] at hc
    cases hst : Heap.store h dst k (.str s) with
    | none => simp [hst] at hc
    | some h1 =>
      simp only [hst] at hc
      have hf1 := freshFrom_store n h h1 dst k _ hf hst (fun b hb => by cases hb)
      have hlen := (store_frame h h1 dst k _ hst).1
      exact cloneEntries_fresh n rec hfr hrec dst rest h1 h' (by omega) hf1 hc
  | (k, .shared r) :: rest, h, h', hn, hf, hc => by
    simp only [cloneEntries] at hc
    cases hst : Heap.store h dst k (.shared r) with
    | none => simp [hst] at hc
    | some h1 =>
      simp only [hst] at hc
      have hf1 := freshFrom_store n h h1 dst k _ hf hst (fun b hb => by cases hb)
      have hlen := (store_frame h h1 dst k _ hst).1
      exact cloneEntries_fresh n rec hfr hrec dst rest h1 h' (by omega) hf1 hc
  | (k, .map a) :: rest, h, h', hn, hf, hc => by
    simp only [cloneEntries] at hc
    cases hr : rec h a with
    | none => simp [hr] at hc
    | some r =>
      obtain ⟨h1, a'⟩ := r
      simp only [hr] at hc
      cases hst : Heap.store h1 dst k (.map a') with
      | none => simp [hst] at hc
      | some h2 =>
        simp only [hst] at hc
        obtain ⟨ha', hlt, _⟩ := hfr h a h1 a' hr
        have hf1 := hrec h a h1 a' hn hf hr
        have hf2 := freshFrom_store n h1 h2 dst k _ hf1 hst
          (fun b hb => by
            have : a' = b := by injection hb
            omega)
        have hlen := (store_frame h1 h2 dst k _ hst).1
        exact cloneEntries_fresh n rec hfr hrec dst rest h2 h' (by omega) hf2 hc

theorem cloneMap_fresh (n : Nat) : ∀ (fuel : Nat) (h : Heap) (a : Nat) (h' : Heap) (a' : Nat),
    n ≤ h.length → FreshFrom n h → cloneMap fuel h a = some (h', a') → FreshFrom n h'
  | 0, h, a, h', a', _, _, hc => by
    simp [cloneMap] at hc
  | fuel + 1, h, a, h', a', hn, hf, hc => by
    simp only [cloneMap] at hc
    cases hobj : h[a]? with
    | none => simp [hobj] at hc
    | some obj =>
      simp only [hobj] at hc
      cases hce : cloneEntries (cloneMap fuel) h.length (h ++ [[]]) obj with
      | none => simp [hce] at hc
      | some h1 =>
        simp only [hce, Option.some.injEq, Prod.mk.injEq] at hc
        obtain ⟨h1eq, _⟩ := hc
        subst h1eq
        exact cloneEntries_fresh n (cloneMap fuel) (cloneMap_frame fuel)
          (cloneMap_fresh n fuel) h.length obj (h ++ [[]]) h1 (by simp; omega)
          (freshFrom_append n h hf) hce

theorem Clone_fresh (n fuel : Nat) (h h' : Heap) (m : MapStr) (a' : Nat)
    (hn : n ≤ h.length) (hf : FreshFrom n h) (hc : MapStr.Clone fuel h m = some (h', a')) :
    FreshFrom n h' := by
  cases m with
  | none =>
    simp only [MapStr.Clone, Option.some.injEq, Prod.mk.injEq] at hc
    obtain ⟨h1eq, _⟩ := hc
    subst h1eq
    exact freshFrom_append n h hf
  | some a => exact cloneMap_fresh n fuel h a h' a' hn hf hc

/-! ## Writing under a dotted key -/

theorem mapFind_spec (n : Nat) (c : Bool) : ∀ (segs : List (List Char)) (h : Heap) (a : Nat),
    FreshFrom n h → n ≤ a → a < h.length →
    ∃ h' r, mapFind c h a segs = some (h', r) ∧ FreshFrom n h' ∧ h.length ≤ h'.length ∧
      (∀ b, b < n → h'[b]? = h[b]?) ∧ (∀ k d, r = .ok (k, d) → n ≤ d ∧ d < h'.length)
  | [], h, a, hf, hn, ha => by
    refine ⟨h, .ok ("", a), by simp [mapFind], hf, Nat.le_refl _, fun _ _ => rfl, ?_⟩
    intro k d hr
    simp only [Except.ok.injEq, Prod.mk.injEq] at hr
    omega
  | [s], h, a, hf, hn, ha => by
    refine ⟨h, .ok (String.mk s, a), by simp [mapFind], hf, Nat.le_refl _, fun _ _ => rfl, ?_⟩
    intro k d hr
    simp only [Except.ok.injEq, Prod.mk.injEq] at hr
    omega
  | s :: s' :: rest, h, a, hf, hn, ha => by
    have hobj : h[a]? = some h[a] := List.getElem?_eq_getElem ha
    generalize h[a] = obj at hobj
    simp only [mapFind, hobj]
    by_cases hfast : (mapGet obj (String.mk (joinDots (s :: s' :: rest)))).isSome = true
    · simp only [hfast, if_true]
      refine ⟨h, _, rfl, hf, Nat.le_refl _, fun _ _ => rfl, ?_⟩
      intro k d hr
      simp only [Except.ok.injEq, Prod.mk.injEq] at hr
      omega
    · simp only [hfast]
      cases hsub : mapGet obj (String.mk s) with
      | none =>
        cases c with
        | false =>
          refine ⟨h, _, rfl, hf, Nat.le_refl _, fun _ _ => rfl, ?_⟩
          intro k d hr
          simp at hr
        | true =>
          have hobj1 : (h ++ [([] : MapObj)])[a]? = some obj := by
            rw [get_append_new h a ha]; exact hobj
          have hst := store_of_get (h ++ [[]]) a (String.mk s) (.map h.length) obj hobj1
          have hf1 : FreshFrom n ((h ++ [[]]).set a (mapSet obj (String.mk s) (.map h.length))) :=
            freshFrom_set n _ a obj _ _ (freshFrom_append n h hf) hobj1
              (fun b hb => by
                have : h.length = b := by injection hb
                simp only [List.length_append, List.length_singleton]
                omega)
          obtain ⟨h', r, hm, hf', hlen, hfr, hd⟩ :=
            mapFind_spec n true (s' :: rest) _ h.length hf1 (by omega) (by simp)
          refine ⟨h', r, ?_, hf', ?_, ?_, hd⟩
          · simp only [if_true, hst]
            exact hm
          · simp only [List.length_set, List.length_append, List.length_singleton] at hlen
            omega
          · intro b hb
            rw [hfr b hb, get_set_ne _ a b _ (by omega), get_append_new h b (by omega)]
      | some v =>
        cases v with
        | str t =>
          refine ⟨h, _, rfl, hf, Nat.le_refl _, fun _ _ => rfl, ?_⟩
          intro k d hr
          simp at hr
        | shared t =>
          refine ⟨h, _, rfl, hf, Nat.le_refl _, fun _ _ => rfl, ?_⟩
          intro k d hr
          simp at hr
        | map d =>
          have hdb := hf a obj hn hobj (String.mk s) d (mem_of_mapGet obj _ _ hsub)
          obtain ⟨h', r, hm, hf', hlen, hfr, hd⟩ :=
            mapFind_spec n c (s' :: rest) h d hf hdb.1 hdb.2
          exact ⟨h', r, hm, hf', hlen, hfr, hd⟩

theorem Put_spec (n : Nat) (h : Heap) (a : Nat) (key : String) (v : Value)
    (hf : FreshFrom n h) (hn : n ≤ a) (ha : a < h.length)
    (hv : ∀ b, v = .map b → n ≤ b ∧ b < h.length) :
    ∃ h' r, MapStr.Put h a key v = some (h', r) ∧ FreshFrom n h' ∧ h.length ≤ h'.length ∧
      (∀ b, b < n → h'[b]? = h[b]?) := by
  obtain ⟨h1, r, hm, hf1, hlen, hfr, hd⟩ :=
    mapFind_spec n true (splitDots key.data) h a hf hn ha
  cases r with
  | error err =>
    exact ⟨h1, some err, by simp [MapStr.Put, hm], hf1, hlen, hfr⟩
  | ok kd =>
    obtain ⟨k, d⟩ := kd
    obtain ⟨hnd, hdl⟩ := hd k d rfl
    have hobj : h1[d]? = some h1[d] := List.getElem?_eq_getElem hdl
    have hst := store_of_get h1 d k v h1[d] hobj
    refine ⟨h1.set d (mapSet h1[d] k v), none, by simp [MapStr.Put, hm, hst], ?_,
      by simpa using hlen, ?_⟩
    · exact freshFrom_set n h1 d _ k v hf1 hobj
        (fun b hb => by have := hv b hb; omega)
    · intro b hb
      rw [get_set_ne h1 d b _ (by omega), hfr b hb]

theorem Clone_content (fuel lo : Nat) (h : Heap) (m : MapStr) (es : List (String × Tree))
    (hm : MapStr.holds lo h m es) (hdepth : (Tree.map es).depth ≤ fuel) :
    ∃ h' obj', MapStr.Clone fuel h m = some (h', h.length) ∧ h'[h.length]? = some obj' ∧
      entriesHeldBy (h.length + 1) h' es obj' := by
  cases m with
  | none =>
    simp only [MapStr.holds] at hm
    subst hm
    refine ⟨h ++ [[]], [], rfl, get_append_last h, ?_⟩
    rw [entriesHeldBy_nil]
  | some a =>
    simp only [MapStr.holds] at hm
    exact cloneMap_content fuel lo es h a hm hdepth

theorem entriesHeldBy_setEntry (lo : Nat) (h : Heap) (k s : String) :
    ∀ (es : List (String × Tree)) (obj : MapObj), entriesHeldBy lo h es obj →
      entriesHeldBy lo h (setEntry es k (.str s)) (mapSet obj k (.str s))
  | [], obj, hes => by
    rw [entriesHeldBy_nil] at hes
    subst hes
    simp only [setEntry, mapSet]
    rw [entriesHeldBy_cons]
    exact ⟨.str s, [], rfl, rfl, (heldBy_str _ _ _ _).mpr rfl, (entriesHeldBy_nil _ _ _).mpr rfl⟩
  | (k', t) :: es, obj, hes => by
    rw [entriesHeldBy_cons] at hes
    obtain ⟨v, rest, hobj, hnone, ht, hrest⟩ := hes
    subst hobj
    by_cases hk : k' = k
    · subst hk
      simp only [setEntry, mapSet, if_true]
      rw [entriesHeldBy_cons]
      exact ⟨.str s, rest, rfl, hnone, (heldBy_str _ _ _ _).mpr rfl, hrest⟩
    · simp only [setEntry, mapSet, hk, if_false]
      rw [entriesHeldBy_cons]
      refine ⟨v, mapSet rest k (.str s), rfl, ?_, ht, entriesHeldBy_setEntry lo h k s es rest hrest⟩
      rw [mapGet_mapSet_ne rest k k' _ hk]
      exact hnone

theorem Put_pipeline (h : Heap) (m : Nat) (v : Value) :
    MapStr.Put h m "pipeline" v =
      (Heap.store h m "pipeline" v).map (fun h2 => (h2, none)) := by
  have hsplit : splitDots "pipeline".data = ["pipeline".data] := by decide
  simp only [MapStr.Put, hsplit, mapFind]
  cases Heap.store h m "pipeline" v <;> rfl

theorem holds_of_owns (lo : Nat) (h : Heap) (a : Nat) (es : List (String × Tree))
    (hlo : lo ≤ a) (how : OwnsEntries h a es) : MapStr.holds lo h (some a) es := by
  obtain ⟨obj, hobj, hes⟩ := how
  simp only [MapStr.holds]
  rw [heldBy_map]
  exact ⟨a, obj, rfl, hlo, hobj,
    entriesHeldBy_mono (a + 1) lo h h (by omega) (fun _ _ _ hx => hx) es obj hes⟩

theorem holds_mono (lo lo' : Nat) (h h' : Heap) (m : MapStr) (es : List (String × Tree))
    (hlo : lo' ≤ lo)
    (hext : ∀ (a : Nat) (obj : MapObj), lo ≤ a → h[a]? = some obj → h'[a]? = some obj)
    (hm : MapStr.holds lo h m es) : MapStr.holds lo' h' m es := by
  cases m with
  | none => exact hm
  | some a => exact heldBy_mono lo lo' h h' hlo hext _ _ hm

theorem owns_set_pipeline (h : Heap) (m : Nat) (s : String) (es : List (String × Tree))
    (obj : MapObj) (hobj : h[m]? = some obj)
    (hes : entriesHeldBy (m + 1) h es obj) :
    OwnsEntries (h.set m (mapSet obj "pipeline" (.str s))) m
      (setEntry es "pipeline" (.str s)) := by
  refine ⟨mapSet obj "pipeline" (.str s), get_set_self h m obj _ hobj, ?_⟩
  refine entriesHeldBy_mono (m + 1) (m + 1) h _ (Nat.le_refl _) ?_ _ _
    (entriesHeldBy_setEntry (m + 1) h "pipeline" s es obj hes)
  intro a o hla ho
  rw [get_set_ne h m a _ (by omega)]
  exact ho

/-! ## The editor -/

theorem edit_spec {EM PC R : Type} (e : ConfigEditor EM PC) (fuel : Nat) (h : Heap)
    (clientCfg : ClientConfig EM R) (fes mes : List (String × Tree))
    (hF : MapStr.holds 0 h clientCfg.Processing.Fields fes)
    (hM : MapStr.holds 0 h clientCfg.Processing.Meta mes)
    (hdF : (Tree.map fes).depth ≤ fuel) (hdM : (Tree.map mes).depth ≤ fuel) :
    ∃ h' f m,
      e.edit fuel h clientCfg =
        some (h',
          { Processing :=
              { EventMetadata := e.settings.EventMetadata
                Fields := some f
                Meta := some m
                Processor := some (e.assemble clientCfg.Processing.Processor)
                KeepNull := e.settings.KeepNull
                DisableHost := e.settings.PublisherPipeline.DisableHost }
            rest := clientCfg.rest },
          none) ∧
      h.length ≤ f ∧ f < h'.length ∧ h.length ≤ m ∧ m < h'.length ∧
      FreshFrom h.length h' ∧ (∀ b, b < h.length → h'[b]? = h[b]?) ∧
      OwnsEntries h' m
        (if e.settings.Pipeline ≠ "" then
          setEntry mes "pipeline" (.str e.settings.Pipeline) else mes) := by
  obtain ⟨h1, objF, hc1, hoF, heF⟩ := Clone_content fuel 0 h _ fes hF hdF
  obtain ⟨_, hlt1, hfr1⟩ := Clone_frame fuel h h1 _ _ hc1
  have hf1 := Clone_fresh h.length fuel h h1 _ _ (Nat.le_refl _) (freshFrom_length h) hc1
  obtain ⟨h2, r, hp, hf2, hlen2, hfr2⟩ :=
    Put_spec h.length h1 h.length "event.dataset" (.str e.dataset) hf1 (Nat.le_refl _) hlt1
      (fun b hb => by cases hb)
  have hM2 : MapStr.holds 0 h2 clientCfg.Processing.Meta mes := by
    refine holds_mono 0 0 h h2 _ _ (Nat.le_refl _) ?_ hM
    intro a obj _ ho
    have halt := lt_length_of_get h a obj ho
    rw [hfr2 a halt, hfr1 a halt]
    exact ho
  obtain ⟨h3, objM, hc3, hoM, heM⟩ := Clone_content fuel 0 h2 _ mes hM2 hdM
  obtain ⟨_, hlt3, hfr3⟩ := Clone_frame fuel h2 h3 _ _ hc3
  have hf3 := Clone_fresh h.length fuel h2 h3 _ _ (by omega) hf2 hc3
  have hbelow3 : ∀ b, b < h.length → h3[b]? = h[b]? := by
    intro b hb
    rw [hfr3 b (by omega), hfr2 b hb, hfr1 b hb]
  by_cases hpipe : e.settings.Pipeline = ""
  · refine ⟨h3, h.length, h2.length, ?_, Nat.le_refl _, by omega, by omega, hlt3, hf3,
      hbelow3, ?_⟩
    · simp [ConfigEditor.edit, hc1, hp, hc3, hpipe]
    · simp only [hpipe, ne_eq, not_true_eq_false, if_false]
      exact ⟨objM, hoM, heM⟩
  · have hst := store_of_get h3 h2.length "pipeline" (.str e.settings.Pipeline) objM hoM
    refine ⟨h3.set h2.length (mapSet objM "pipeline" (.str e.settings.Pipeline)), h.length,
      h2.length, ?_, Nat.le_refl _, by simp; omega, by omega, by simpa using hlt3, ?_, ?_, ?_⟩
    · simp [ConfigEditor.edit, hc1, hp, hc3, hpipe, Put_pipeline, hst]
    · exact freshFrom_set h.length h3 h2.length objM _ _ hf3 hoM (fun b hb => by cases hb)
    · intro b hb
      rw [get_set_ne h3 h2.length b _ (by omega)]
      exact hbelow3 b hb
    · simp only [ne_eq, hpipe, not_false_eq_true, if_true]
      exact owns_set_pipeline h3 h2.length e.settings.Pipeline mes objM hoM heM

/-! ## Sample values: their properties -/

theorem sample_holds_fields :
    MapStr.holds 0 sampleHeap sampleClientCfg.Processing.Fields sampleFields := by
  exact ⟨0, _, rfl, Nat.le_refl _, rfl,
    ⟨_, _, rfl, rfl, ⟨1, _, rfl, Nat.zero_le _, rfl, ⟨_, _, rfl, rfl, rfl, rfl⟩⟩,
      ⟨_, _, rfl, rfl, rfl, rfl⟩⟩⟩

theorem sample_holds_meta :
    MapStr.holds 0 sampleHeap sampleClientCfg.Processing.Meta sampleMeta := by
  exact ⟨2, _, rfl, Nat.zero_le _, rfl,
    ⟨_, _, rfl, rfl, rfl, ⟨_, _, rfl, rfl, rfl, rfl⟩⟩⟩

theorem sample_depth_fields : (Tree.map sampleFields).depth ≤ 2 := by decide

theorem sample_depth_meta : (Tree.map sampleMeta).depth ≤ 2 := by decide

theorem sample_new_editor :
    newCommonPublishConfigs sampleUnpack sampleNew sampleInfo sampleSettings = .ok sampleEditor :=
  rfl

/-! ## Building the editor -/

theorem newCommonPublishConfigs_ok {Cfg EM PC : Type}
    (Unpack : Cfg → Except Error (publishSettings EM PC))
    (New : PC → Except Error (Option Processors)) (info : Info) (cfg : Cfg)
    (e : ConfigEditor EM PC)
    (hnew : newCommonPublishConfigs Unpack New info cfg = .ok e) :
    Unpack cfg = .ok e.settings ∧
      setupIndexProcessor info e.settings = .ok e.indexProcessor ∧
      New e.settings.Processors = .ok e.userProcessors ∧
      e.dataset = resolveDataset e.settings := by
  unfold newCommonPublishConfigs at hnew
  cases hu : Unpack cfg with
  | error err => simp [hu] at hnew
  | ok settings =>
    simp only [hu] at hnew
    cases hs : setupIndexProcessor info settings with
    | error err => simp [hs] at hnew
    | ok indexProcessor =>
      simp only [hs] at hnew
      cases hp : New settings.Processors with
      | error err => simp [hp] at hnew
      | ok userProcessors =>
        simp only [hp, Except.ok.injEq] at hnew
        subst hnew
        exact ⟨rfl, hs, hp, rfl⟩

theorem datastreamIndex_ne_empty (ds : datastream) : datastreamIndex ds ≠ "" := by
  intro h
  have hl := congrArg String.length h
  simp only [datastreamIndex, String.length_append] at hl
  have h1 : "-".length = 1 := rfl
  have h0 : "".length = 0 := rfl
  rw [h1, h0] at hl
  omega

theorem CompileEvent_not_empty (input : String) (compiled : EventFormatString)
    (hne : input ≠ "") (hc : CompileEvent input = .ok compiled) : compiled.IsEmpty = false := by
  unfold CompileEvent at hc
  cases hp : parseFormat false [] input.data with
  | error err => simp [hp, Except.map] at hc
  | ok es =>
    simp only [hp, Except.map, Except.ok.injEq] at hc
    subst hc
    simp [EventFormatString.IsEmpty, hne]

/-! ## The claims -/

/-- C1: the dataset that the editor made by `newCommonPublishConfigs` closes over
is the legacy `dataset` option when that is non-empty, else `data_stream.dataset`
when the block is present and that is non-empty, else `"uptime"`. So
(`""`, `"custom"`) gives `"custom"`, both empty gives `"uptime"` and
(`"legacy"`, `"custom"`) gives `"legacy"`. -/
theorem dataset_resolution {Cfg EM PC : Type}
    (Unpack : Cfg → Except Error (publishSettings EM PC))
    (New : PC → Except Error (Option Processors)) (info : Info) (cfg : Cfg)
    (e : ConfigEditor EM PC)
    (hnew : newCommonPublishConfigs Unpack New info cfg = .ok e) :
    Unpack cfg = .ok e.settings ∧
    e.dataset =
      (if e.settings.DataSet ≠ "" then e.settings.DataSet
       else
         match e.settings.DataStream with
         | some ds => if ds.Dataset ≠ "" then ds.Dataset else "uptime"
         | none => "uptime") ∧
    (∀ ds, e.settings.DataSet = "" → e.settings.DataStream = some ds →
      ds.Dataset = "custom" → e.dataset = "custom") ∧
    (e.settings.DataSet = "" → (∀ ds, e.settings.DataStream = some ds → ds.Dataset = "") →
      e.dataset = "uptime") ∧
    (∀ ds, e.settings.DataSet = "legacy" → e.settings.DataStream = some ds →
      ds.Dataset = "custom" → e.dataset = "legacy") := by
  obtain ⟨hu, _, _, hd⟩ := newCommonPublishConfigs_ok Unpack New info cfg e hnew
  refine ⟨hu, ?_, ?_, ?_, ?_⟩
  · rw [hd]
    unfold resolveDataset
    by_cases h1 : e.settings.DataSet = "" <;> simp [h1]
  · intro ds h1 h2 h3
    rw [hd]
    simp [resolveDataset, h1, h2, h3]
  · intro h1 h2
    rw [hd]
    unfold resolveDataset
    cases hds : e.settings.DataStream with
    | none => simp [h1]
    | some ds => simp [h1, h2 ds hds]
  · intro ds h1 h2 h3
    rw [hd]
    simp [resolveDataset, h1]

/-- Witness of C1 on the sample settings (`dataset: legacy`,
`data_stream.dataset: custom`). -/
theorem dataset_resolution_witness :
    newCommonPublishConfigs sampleUnpack sampleNew sampleInfo sampleSettings = .ok sampleEditor ∧
      sampleEditor.dataset = "legacy" :=
  ⟨rfl,
    (dataset_resolution sampleUnpack sampleNew sampleInfo sampleSettings sampleEditor rfl).2.2.2.2
      { Namespace := "", Dataset := "custom", Typ := "" } rfl rfl rfl⟩

/-- C2: the index name synthesized from a data-stream block is
`t ++ "-" ++ d ++ "-" ++ n` with `t` the type or `"synthetics"`, `d` the dataset
or `"generic"` and `n` the namespace or `"default"`, each default on its own;
this is the string `setupIndexProcessor` compiles. The all-empty block gives
`"synthetics-generic-default"` and (`http`, `uptime-check`, `prod`) gives
`"http-uptime-check-prod"`. -/
theorem datastream_name_synthesis {EM PC : Type} (info : Info) (s : publishSettings EM PC)
    (ds : datastream) :
    datastreamIndex ds =
        (if ds.Typ = "" then "synthetics" else ds.Typ) ++ "-" ++
          (if ds.Dataset = "" then "generic" else ds.Dataset) ++ "-" ++
          (if ds.Namespace = "" then "default" else ds.Namespace) ∧
    (setupIndexProcessor info { s with DataStream := some ds } =
        match CompileEvent
          ((if ds.Typ = "" then "synthetics" else ds.Typ) ++ "-" ++
            (if ds.Dataset = "" then "generic" else ds.Dataset) ++ "-" ++
            (if ds.Namespace = "" then "default" else ds.Namespace)) with
        | .error err =>
          .error (Error.datastream
            ((if ds.Typ = "" then "synthetics" else ds.Typ) ++ "-" ++
              (if ds.Dataset = "" then "generic" else ds.Dataset) ++ "-" ++
              (if ds.Namespace = "" then "default" else ds.Namespace)) err)
        | .ok compiled => indexProcessorOf info compiled) ∧
    datastreamIndex { Namespace := "", Dataset := "", Typ := "" } =
      "synthetics-generic-default" ∧
    datastreamIndex { Namespace := "prod", Dataset := "uptime-check", Typ := "http" } =
      "http-uptime-check-prod" := by
  refine ⟨rfl, ?_, by decide, by decide⟩
  simp only [setupIndexProcessor, datastreamIndex]

/-- C3 as stated fails. On the sample values (index processor `I`, inbound chain
`[A]`, user chain `[B]`) the outbound chain is `[I, [A], B]`, whose second element
is the inbound chain itself, and not the list `[I, A, B]`. -/
theorem processor_ordering_counterexample :
    setupIndexProcessor sampleInfo sampleSettings = .ok (some sampleIndexProcessor) ∧
    sampleClientCfg.Processing.Processor = some [Processor.plugin "A"] ∧
    sampleEditor.userProcessors = some [Processor.plugin "B"] ∧
    (sampleEditor.edit 2 sampleHeap sampleClientCfg).map (fun r => r.2.1.Processing.Processor) =
      some (some [sampleIndexProcessor, Processor.list [Processor.plugin "A"],
        Processor.plugin "B"]) ∧
    (sampleEditor.edit 2 sampleHeap sampleClientCfg).map (fun r => r.2.1.Processing.Processor) ≠
      some (some [sampleIndexProcessor, Processor.plugin "A", Processor.plugin "B"]) := by
  have hrun : (sampleEditor.edit 2 sampleHeap sampleClientCfg).map
      (fun r => r.2.1.Processing.Processor) =
      some (some [sampleIndexProcessor, Processor.list [Processor.plugin "A"],
        Processor.plugin "B"]) := rfl
  refine ⟨rfl, rfl, rfl, hrun, ?_⟩
  rw [hrun]
  simp

/-- C3, amended: for an inbound chain `[A]`, a user chain `[B]` and an index
processor `I`, the editor returns the chain `[I, L, B]`, where `L` is the inbound
chain itself, added as one processor; run in order, its processors are `I`, then
`A`, then `B`. The inbound maps are any finite maps and `fuel` bounds their
nesting. -/
theorem processor_ordering {EM PC R : Type} (e : ConfigEditor EM PC) (fuel : Nat) (h : Heap)
    (clientCfg : ClientConfig EM R) (fes mes : List (String × Tree))
    (hF : MapStr.holds 0 h clientCfg.Processing.Fields fes)
    (hM : MapStr.holds 0 h clientCfg.Processing.Meta mes)
    (hdF : (Tree.map fes).depth ≤ fuel) (hdM : (Tree.map mes).depth ≤ fuel)
    (I A B : Processor) (hI : e.indexProcessor = some I)
    (hA : clientCfg.Processing.Processor = some [A]) (hB : e.userProcessors = some [B]) :
    ∃ h' out, e.edit fuel h clientCfg = some (h', out, none) ∧
      out.Processing.Processor = some [I, Processor.list [A], B] ∧
      leavesList [I, Processor.list [A], B] =
        I.leaves ++ A.leaves ++ B.leaves := by
  obtain ⟨h', f, m, hedit, _⟩ := edit_spec e fuel h clientCfg fes mes hF hM hdF hdM
  refine ⟨h', _, hedit, ?_, ?_⟩
  · simp [ConfigEditor.assemble, hI, hA, hB, NewList, Processors.AddProcessor,
      Processors.AddProcessors]
  · simp [leavesList, Processor.leaves]

/-- Witness of the amended C3 on the sample values. -/
theorem processor_ordering_witness :
    MapStr.holds 0 sampleHeap sampleClientCfg.Processing.Fields sampleFields ∧
    MapStr.holds 0 sampleHeap sampleClientCfg.Processing.Meta sampleMeta ∧
    ∃ h' out, sampleEditor.edit 2 sampleHeap sampleClientCfg = some (h', out, none) ∧
      out.Processing.Processor =
        some [sampleIndexProcessor, Processor.list [Processor.plugin "A"],
          Processor.plugin "B"] ∧
      leavesList
          [sampleIndexProcessor, Processor.list [Processor.plugin "A"], Processor.plugin "B"] =
        sampleIndexProcessor.leaves ++ (Processor.plugin "A").leaves ++
          (Processor.plugin "B").leaves :=
  ⟨sample_holds_fields, sample_holds_meta,
    processor_ordering sampleEditor 2 sampleHeap sampleClientCfg sampleFields sampleMeta
      sample_holds_fields sample_holds_meta sample_depth_fields sample_depth_meta
      sampleIndexProcessor (Processor.plugin "A") (Processor.plugin "B") rfl rfl rfl⟩

theorem indexProcessorOf_not_empty (info : Info) (index : EventFormatString)
    (hne : index.IsEmpty = false) :
    indexProcessorOf info index =
      .ok (some (Processor.addFormattedIndex
        { eventFormatString := index, fields := FieldsForBeat info.Beat info.Version })) := by
  simp [indexProcessorOf, NewTimestampFormatString, hne]

theorem indexProcessorOf_empty (info : Info) (index : EventFormatString)
    (he : index.IsEmpty = true) : indexProcessorOf info index = .ok none := by
  simp [indexProcessorOf, he]

/-- C4: with a data-stream block and any legacy index template (a non-empty one
in particular), the template handed to the timestamp format (and stamped by the
index processor) is the one compiled from the synthesized data-stream name; the
result is the same for every legacy index template. -/
theorem datastream_precedence {EM PC : Type} (info : Info) (s : publishSettings EM PC)
    (ds : datastream) (legacy : EventFormatString) :
    setupIndexProcessor info { s with Index := legacy, DataStream := some ds } =
        (match CompileEvent (datastreamIndex ds) with
         | .error err => .error (Error.datastream (datastreamIndex ds) err)
         | .ok compiled =>
           .ok (some (Processor.addFormattedIndex
             { eventFormatString := compiled
               fields := FieldsForBeat info.Beat info.Version }))) ∧
    ∀ other : EventFormatString,
      setupIndexProcessor info { s with Index := other, DataStream := some ds } =
        setupIndexProcessor info { s with Index := legacy, DataStream := some ds } := by
  constructor
  · simp only [setupIndexProcessor]
    cases hc : CompileEvent (datastreamIndex ds) with
    | error err => rfl
    | ok compiled =>
      exact indexProcessorOf_not_empty info compiled
        (CompileEvent_not_empty _ _ (datastreamIndex_ne_empty ds) hc)
  · intro other
    simp only [setupIndexProcessor]

/-- C5: without a data-stream block and with an empty legacy index template
(never set, or compiled from the empty string) `setupIndexProcessor` returns no
processor and no error; when it succeeds with a data-stream block or a non-empty
legacy template it returns a processor, namely the index processor of the
compiled data-stream name or of the legacy template; and an editor without index
processor returns the inbound chain (as one processor, if there is one) followed
by the user processors. -/
theorem index_processor_presence {EM PC R : Type} (info : Info) (s : publishSettings EM PC) :
    (s.DataStream = none → s.Index.IsEmpty = true → setupIndexProcessor info s = .ok none) ∧
    (({ expression := "", formatter := none } : EventFormatString).IsEmpty = true ∧
      ∀ compiled, CompileEvent "" = .ok compiled →
        compiled.IsEmpty = true ∧
        setupIndexProcessor info { s with Index := compiled, DataStream := none } = .ok none) ∧
    (∀ r, (s.DataStream ≠ none ∨ s.Index.IsEmpty = false) →
      setupIndexProcessor info s = .ok r → ∃ p, r = some p) ∧
    (s.DataStream = none → s.Index.IsEmpty = false →
      setupIndexProcessor info s =
        .ok (some (Processor.addFormattedIndex
          { eventFormatString := s.Index
            fields := FieldsForBeat info.Beat info.Version }))) ∧
    (∀ ds r, s.DataStream = some ds → setupIndexProcessor info s = .ok r →
      ∃ compiled, CompileEvent (datastreamIndex ds) = .ok compiled ∧
        r = some (Processor.addFormattedIndex
          { eventFormatString := compiled
            fields := FieldsForBeat info.Beat info.Version })) ∧
    (∀ (e : ConfigEditor EM PC) (fuel : Nat) (h : Heap) (clientCfg : ClientConfig EM R)
      (fes mes : List (String × Tree)),
      MapStr.holds 0 h clientCfg.Processing.Fields fes →
      MapStr.holds 0 h clientCfg.Processing.Meta mes →
      (Tree.map fes).depth ≤ fuel → (Tree.map mes).depth ≤ fuel →
      e.indexProcessor = none →
      ∃ h' out, e.edit fuel h clientCfg = some (h', out, none) ∧
        out.Processing.Processor =
          some ((match clientCfg.Processing.Processor with
                 | some lst => [Processor.list lst]
                 | none => []) ++
                (match e.userProcessors with
                 | some userProcessors => userProcessors
                 | none => []))) := by
  have hds_case : ∀ ds r, s.DataStream = some ds → setupIndexProcessor info s = .ok r →
      ∃ compiled, CompileEvent (datastreamIndex ds) = .ok compiled ∧
        r = some (Processor.addFormattedIndex
          { eventFormatString := compiled
            fields := FieldsForBeat info.Beat info.Version }) := by
    intro ds r hds hr
    simp only [setupIndexProcessor, hds] at hr
    cases hc : CompileEvent (datastreamIndex ds) with
    | error err => simp [hc] at hr
    | ok compiled =>
      simp only [hc] at hr
      rw [indexProcessorOf_not_empty info compiled
        (CompileEvent_not_empty _ _ (datastreamIndex_ne_empty ds) hc)] at hr
      simp only [Except.ok.injEq] at hr
      exact ⟨compiled, rfl, hr.symm⟩
  have hlegacy : s.DataStream = none → s.Index.IsEmpty = false →
      setupIndexProcessor info s =
        .ok (some (Processor.addFormattedIndex
          { eventFormatString := s.Index
            fields := FieldsForBeat info.Beat info.Version })) := by
    intro hds hne
    simp only [setupIndexProcessor, hds]
    exact indexProcessorOf_not_empty info s.Index hne
  refine ⟨?_, ⟨rfl, ?_⟩, ?_, hlegacy, hds_case, ?_⟩
  · intro hds he
    simp only [setupIndexProcessor, hds]
    exact indexProcessorOf_empty info s.Index he
  · intro compiled hc
    have hce : CompileEvent "" = .ok { expression := "", formatter := some [] } := rfl
    rw [hce] at hc
    simp only [Except.ok.injEq] at hc
    subst hc
    exact ⟨rfl, rfl⟩
  · intro r hor hr
    cases hds : s.DataStream with
    | some ds =>
      obtain ⟨compiled, _, hrc⟩ := hds_case ds r hds hr
      exact ⟨_, hrc⟩
    | none =>
      have hne : s.Index.IsEmpty = false := by
        rcases hor with h1 | h1
        · exact absurd hds h1
        · exact h1
      rw [hlegacy hds hne] at hr
      simp only [Except.ok.injEq] at hr
      exact ⟨_, hr.symm⟩
  · intro e fuel h clientCfg fes mes hF hM hdF hdM hnone
    obtain ⟨h', f, m, hedit, _⟩ := edit_spec e fuel h clientCfg fes mes hF hM hdF hdM
    refine ⟨h', _, hedit, ?_⟩
    simp only [ConfigEditor.assemble, hnone, NewList]
    cases clientCfg.Processing.Processor <;> cases e.userProcessors <;>
      simp [Processors.AddProcessor, Processors.AddProcessors]

/-- Witness of C5 on the sample values: no index processor for the template
that was never set and for the one compiled from the empty string, the index
processor of `legacy-index` for `legacyIndexSettings`, the one of the data-stream
name for `sampleSettings`, and the chain `[[A], B]` from `noIndexEditor`. -/
theorem index_processor_presence_witness :
    setupIndexProcessor sampleInfo noIndexSettings = .ok none ∧
    setupIndexProcessor sampleInfo
        { noIndexSettings with
          Index := { expression := "", formatter := some [] }
          DataStream := none } = .ok none ∧
    setupIndexProcessor sampleInfo legacyIndexSettings =
      .ok (some (Processor.addFormattedIndex
        { eventFormatString := legacyIndexSettings.Index
          fields := FieldsForBeat sampleInfo.Beat sampleInfo.Version })) ∧
    (∃ compiled, CompileEvent "synthetics-custom-default" = .ok compiled ∧
      some sampleIndexProcessor = some (Processor.addFormattedIndex
        { eventFormatString := compiled
          fields := FieldsForBeat sampleInfo.Beat sampleInfo.Version })) ∧
    ∃ h' out, noIndexEditor.edit 2 sampleHeap sampleClientCfg = some (h', out, none) ∧
      out.Processing.Processor =
        some ([Processor.list [Processor.plugin "A"]] ++ [Processor.plugin "B"]) :=
  ⟨(index_processor_presence (R := Nat) sampleInfo noIndexSettings).1 rfl rfl,
    ((index_processor_presence (R := Nat) sampleInfo noIndexSettings).2.1.2 _ rfl).2,
    (index_processor_presence (R := Nat) sampleInfo legacyIndexSettings).2.2.2.1 rfl rfl,
    (index_processor_presence (R := Nat) sampleInfo sampleSettings).2.2.2.2.1
      { Namespace := "", Dataset := "custom", Typ := "" } _ rfl rfl,
    (index_processor_presence sampleInfo noIndexSettings).2.2.2.2.2 noIndexEditor 2 sampleHeap
      sampleClientCfg sampleFields sampleMeta sample_holds_fields sample_holds_meta
      sample_depth_fields sample_depth_meta rfl⟩

/-- C9: the event metadata, the keep-null flag and the disable-host flag of the
returned configuration are those of the settings, whatever the inbound
configuration carried. The inbound maps are any finite maps and `fuel` bounds
their nesting. -/
theorem wholesale_overwrite {EM PC R : Type} (e : ConfigEditor EM PC) (fuel : Nat) (h : Heap)
    (clientCfg : ClientConfig EM R) (fes mes : List (String × Tree))
    (hF : MapStr.holds 0 h clientCfg.Processing.Fields fes)
    (hM : MapStr.holds 0 h clientCfg.Processing.Meta mes)
    (hdF : (Tree.map fes).depth ≤ fuel) (hdM : (Tree.map mes).depth ≤ fuel) :
    ∃ h' out, e.edit fuel h clientCfg = some (h', out, none) ∧
      out.Processing.EventMetadata = e.settings.EventMetadata ∧
      out.Processing.KeepNull = e.settings.KeepNull ∧
      out.Processing.DisableHost = e.settings.PublisherPipeline.DisableHost := by
  obtain ⟨h', f, m, hedit, _⟩ := edit_spec e fuel h clientCfg fes mes hF hM hdF hdM
  exact ⟨h', _, hedit, rfl, rfl, rfl⟩

/-- Witness of C9: the sample inbound configuration carries other values
(`inbound-tags`, `false`, `false`) than the sample settings. -/
theorem wholesale_overwrite_witness :
    MapStr.holds 0 sampleHeap sampleClientCfg.Processing.Fields sampleFields ∧
    MapStr.holds 0 sampleHeap sampleClientCfg.Processing.Meta sampleMeta ∧
    sampleClientCfg.Processing.EventMetadata ≠ sampleEditor.settings.EventMetadata ∧
    ∃ h' out, sampleEditor.edit 2 sampleHeap sampleClientCfg = some (h', out, none) ∧
      out.Processing.EventMetadata = sampleEditor.settings.EventMetadata ∧
      out.Processing.KeepNull = sampleEditor.settings.KeepNull ∧
      out.Processing.DisableHost = sampleEditor.settings.PublisherPipeline.DisableHost :=
  ⟨sample_holds_fields, sample_holds_meta, by decide,
    wholesale_overwrite sampleEditor 2 sampleHeap sampleClientCfg sampleFields sampleMeta
      sample_holds_fields sample_holds_meta sample_depth_fields sample_depth_meta⟩

/-- C10 fails on the code: for the data-stream dataset `%\x7b` the synthesized
name `synthetics-%\x7b-default` does not compile, and `setupIndexProcessor` (so
`newCommonPublishConfigs` too) returns the "this should never happen" error. -/
theorem datastream_compile_error :
    openExpansionSettings.DataStream =
        some { Namespace := "", Dataset := "%\x7b", Typ := "" } ∧
    setupIndexProcessor sampleInfo openExpansionSettings =
        .error (Error.datastream "synthetics-%\x7b-default"
          (Error.compile "missing closing brace")) ∧
    newCommonPublishConfigs sampleUnpack sampleNew sampleInfo openExpansionSettings =
        .error (Error.datastream "synthetics-%\x7b-default"
          (Error.compile "missing closing brace")) :=
  ⟨rfl, rfl, rfl⟩

/-- C6 fails on the code: when the inbound fields map has the plain value `x`
under `event`, `fields.Put` returns an error, which the editor drops; the
returned fields map is a copy of the inbound one and has no `event.dataset`. -/
theorem event_dataset_not_set :
    MapStr.holds 0 plainEventHeap plainEventCfg.Processing.Fields [("event", .str "x")] ∧
    MapStr.Put (plainEventHeap ++ [[("event", .str "x")]]) 1 "event.dataset" (.str "legacy") =
      some (plainEventHeap ++ [[("event", .str "x")]],
        some (Error.put "expected map but type is string")) ∧
    (sampleEditor.edit 1 plainEventHeap plainEventCfg).map
        (fun r => (r.1, r.2.1.Processing.Fields, r.2.2)) =
      some ([[("event", .str "x")], [("event", .str "x")], [("pipeline", .str "ingest-a")]],
        some 1, none) ∧
    MapStr.GetValue
        [[("event", .str "x")], [("event", .str "x")], [("pipeline", .str "ingest-a")]] 1
        "event.dataset" = none :=
  ⟨⟨0, _, rfl, Nat.le_refl _, rfl, ⟨_, _, rfl, rfl, rfl, rfl⟩⟩, rfl, rfl, rfl⟩

theorem getEntry_setEntry (es : List (String × Tree)) (k k' : String) (t : Tree) :
    getEntry (setEntry es k t) k' = if k' = k then some t else getEntry es k' := by
  induction es with
  | nil =>
    by_cases hk : k' = k
    · simp [setEntry, getEntry, hk]
    · simp [setEntry, getEntry, hk, Ne.symm hk]
  | cons p rest ih =>
    obtain ⟨k0, t0⟩ := p
    by_cases h0 : k0 = k
    · subst h0
      by_cases hk : k' = k0
      · simp [setEntry, getEntry, hk]
      · simp [setEntry, getEntry, hk, Ne.symm hk]
    · by_cases hk : k' = k
      · subst hk
        simp [setEntry, getEntry, h0, ih]
      · by_cases h1 : k0 = k'
        · simp [setEntry, getEntry, h0, hk, h1]
        · simp [setEntry, getEntry, h0, hk, h1, ih]

theorem putAll_spec (n : Nat) : ∀ (writes : List (Nat × String × Value)) (h : Heap),
    FreshFrom n h →
    (∀ w, w ∈ writes → n ≤ w.1 ∧ w.1 < h.length ∧
      ∀ b, w.2.2 = Value.map b → n ≤ b ∧ b < h.length) →
    ∃ h', putAll h writes = some h' ∧ FreshFrom n h' ∧ h.length ≤ h'.length ∧
      ∀ b, b < n → h'[b]? = h[b]?
  | [], h, hf, _ => ⟨h, rfl, hf, Nat.le_refl _, fun _ _ => rfl⟩
  | (target, key, value) :: rest, h, hf, hw => by
    obtain ⟨hn, hlt, hval⟩ := hw (target, key, value) (by simp)
    obtain ⟨h1, r, hput, hf1, hlen1, hfr1⟩ :=
      Put_spec n h target key value hf hn hlt hval
    have hw1 : ∀ w, w ∈ rest → n ≤ w.1 ∧ w.1 < h1.length ∧
        ∀ b, w.2.2 = Value.map b → n ≤ b ∧ b < h1.length := by
      intro w hmem
      obtain ⟨h1n, h1l, h1v⟩ := hw w (List.mem_cons_of_mem _ hmem)
      refine ⟨h1n, by omega, fun b hb => ?_⟩
      have := h1v b hb
      omega
    obtain ⟨h', hall, hf', hlen', hfr'⟩ := putAll_spec n rest h1 hf1 hw1
    refine ⟨h', ?_, hf', by omega, ?_⟩
    · simp only [putAll, hput]
      exact hall
    · intro b hb
      rw [hfr' b hb, hfr1 b hb]

/-- C7 as stated fails. The inbound fields map holds a slice under `tags`;
`Clone` copies the reference, so the returned map holds the same slice, and a
later write to its first element through the returned map is read through the
inbound map. -/
theorem shared_value_counterexample :
    (sampleEditor.edit 1 sharedHeap sharedCfg).map (fun r => (r.1, r.2.1.Processing.Fields)) =
      some ([[("tags", .shared 0)],
             [("tags", .shared 0), ("event", .map 2)],
             [("dataset", .str "legacy")],
             [("pipeline", .str "ingest-a")]], some 1) ∧
    sharedCfg.Processing.Fields = some 0 ∧
    readElem
        [[("tags", .shared 0)], [("tags", .shared 0), ("event", .map 2)],
         [("dataset", .str "legacy")], [("pipeline", .str "ingest-a")]]
        sharedStore 0 "tags" 0 = some (.str "a") ∧
    writeElem
        [[("tags", .shared 0)], [("tags", .shared 0), ("event", .map 2)],
         [("dataset", .str "legacy")], [("pipeline", .str "ingest-a")]]
        sharedStore 1 "tags" 0 (.str "changed") = some [[.str "changed"]] ∧
    readElem
        [[("tags", .shared 0)], [("tags", .shared 0), ("event", .map 2)],
         [("dataset", .str "legacy")], [("pipeline", .str "ingest-a")]]
        [[.str "changed"]] 0 "tags" 0 = some (.str "changed") ∧
    (Value.str "changed") ≠ .str "a" :=
  ⟨rfl, rfl, rfl, rfl, rfl, by decide⟩

/-- C7, amended: the editor changes no map object that existed before the call.
The returned fields and metadata maps are new objects; after the call every old
object, and so the content of the inbound fields and metadata maps, is what it
was; and any sequence of later `Put` calls under any keys of the returned maps
still leaves them so, whatever the values written, except maps that existed
before the call. The inbound maps are any finite maps, with plain, map and
shared values, and `fuel` bounds their nesting. -/
theorem editor_keeps_inbound_maps {EM PC R : Type} (e : ConfigEditor EM PC) (fuel : Nat)
    (h : Heap) (clientCfg : ClientConfig EM R) (fes mes : List (String × Tree))
    (hF : MapStr.holds 0 h clientCfg.Processing.Fields fes)
    (hM : MapStr.holds 0 h clientCfg.Processing.Meta mes)
    (hdF : (Tree.map fes).depth ≤ fuel) (hdM : (Tree.map mes).depth ≤ fuel) :
    ∃ h' out f m, e.edit fuel h clientCfg = some (h', out, none) ∧
      out.Processing.Fields = some f ∧ out.Processing.Meta = some m ∧
      h.length ≤ f ∧ h.length ≤ m ∧
      (∀ b, b < h.length → h'[b]? = h[b]?) ∧
      MapStr.holds 0 h' clientCfg.Processing.Fields fes ∧
      MapStr.holds 0 h' clientCfg.Processing.Meta mes ∧
      ∀ (writes : List (Nat × String × Value)),
        (∀ w, w ∈ writes → (w.1 = f ∨ w.1 = m) ∧
          ∀ b, w.2.2 = Value.map b → h.length ≤ b ∧ b < h'.length) →
        ∃ hLater, putAll h' writes = some hLater ∧
          (∀ b, b < h.length → hLater[b]? = h[b]?) ∧
          MapStr.holds 0 hLater clientCfg.Processing.Fields fes ∧
          MapStr.holds 0 hLater clientCfg.Processing.Meta mes := by
  obtain ⟨h', f, m, hedit, hf, hfl, hm, hml, hfresh, hframe, _⟩ :=
    edit_spec e fuel h clientCfg fes mes hF hM hdF hdM
  have hkeep : ∀ (g : Heap), (∀ b, b < h.length → g[b]? = h[b]?) →
      ∀ (a : Nat) (obj : MapObj), 0 ≤ a → h[a]? = some obj → g[a]? = some obj := by
    intro g hg a obj _ ho
    rw [hg a (lt_length_of_get h a obj ho)]
    exact ho
  refine ⟨h', _, f, m, hedit, rfl, rfl, hf, hm, hframe,
    holds_mono 0 0 h h' _ _ (Nat.le_refl _) (hkeep h' hframe) hF,
    holds_mono 0 0 h h' _ _ (Nat.le_refl _) (hkeep h' hframe) hM, ?_⟩
  intro writes hwrites
  have hw : ∀ w, w ∈ writes →
      h.length ≤ w.1 ∧ w.1 < h'.length ∧
      ∀ b, w.2.2 = Value.map b → h.length ≤ b ∧ b < h'.length := by
    intro w hmem
    obtain ⟨htarget, hval⟩ := hwrites w hmem
    rcases htarget with ht | ht
    · rw [ht]
      exact ⟨hf, hfl, hval⟩
    · rw [ht]
      exact ⟨hm, hml, hval⟩
  obtain ⟨hLater, hall, _, _, hframe2⟩ := putAll_spec h.length writes h' hfresh hw
  have hboth : ∀ b, b < h.length → hLater[b]? = h[b]? := by
    intro b hb
    rw [hframe2 b hb, hframe b hb]
  exact ⟨hLater, hall, hboth,
    holds_mono 0 0 h hLater _ _ (Nat.le_refl _) (hkeep hLater hboth) hF,
    holds_mono 0 0 h hLater _ _ (Nat.le_refl _) (hkeep hLater hboth) hM⟩

/-- Witness of the amended C7 on the sample store and configuration. -/
theorem editor_keeps_inbound_maps_witness :
    MapStr.holds 0 sampleHeap sampleClientCfg.Processing.Fields sampleFields ∧
    MapStr.holds 0 sampleHeap sampleClientCfg.Processing.Meta sampleMeta ∧
    ∃ h' out f m, sampleEditor.edit 2 sampleHeap sampleClientCfg = some (h', out, none) ∧
      out.Processing.Fields = some f ∧ out.Processing.Meta = some m ∧
      sampleHeap.length ≤ f ∧ sampleHeap.length ≤ m ∧
      (∀ b, b < sampleHeap.length → h'[b]? = sampleHeap[b]?) ∧
      MapStr.holds 0 h' sampleClientCfg.Processing.Fields sampleFields ∧
      MapStr.holds 0 h' sampleClientCfg.Processing.Meta sampleMeta ∧
      ∀ (writes : List (Nat × String × Value)),
        (∀ w, w ∈ writes → (w.1 = f ∨ w.1 = m) ∧
          ∀ b, w.2.2 = Value.map b → sampleHeap.length ≤ b ∧ b < h'.length) →
        ∃ hLater, putAll h' writes = some hLater ∧
          (∀ b, b < sampleHeap.length → hLater[b]? = sampleHeap[b]?) ∧
          MapStr.holds 0 hLater sampleClientCfg.Processing.Fields sampleFields ∧
          MapStr.holds 0 hLater sampleClientCfg.Processing.Meta sampleMeta :=
  ⟨sample_holds_fields, sample_holds_meta,
    editor_keeps_inbound_maps sampleEditor 2 sampleHeap sampleClientCfg sampleFields sampleMeta
      sample_holds_fields sample_holds_meta sample_depth_fields sample_depth_meta⟩

/-- C8: with a non-empty `settings.Pipeline` the returned metadata map holds the
entries of the inbound one with `pipeline` set to it (every other key reads as
before); with an empty `settings.Pipeline` it holds exactly the entries of the
inbound one. It is a new map, made of objects the inbound store did not have.
The inbound maps are any finite maps and `fuel` bounds their nesting. -/
theorem metadata_pipeline {EM PC R : Type} (e : ConfigEditor EM PC) (fuel : Nat) (h : Heap)
    (clientCfg : ClientConfig EM R) (fes mes : List (String × Tree))
    (hF : MapStr.holds 0 h clientCfg.Processing.Fields fes)
    (hM : MapStr.holds 0 h clientCfg.Processing.Meta mes)
    (hdF : (Tree.map fes).depth ≤ fuel) (hdM : (Tree.map mes).depth ≤ fuel) :
    ∃ h' out outMeta, e.edit fuel h clientCfg = some (h', out, none) ∧
      MapStr.holds h.length h' out.Processing.Meta outMeta ∧
      (e.settings.Pipeline ≠ "" →
        outMeta = setEntry mes "pipeline" (.str e.settings.Pipeline) ∧
        ∀ k, getEntry outMeta k =
          if k = "pipeline" then some (.str e.settings.Pipeline) else getEntry mes k) ∧
      (e.settings.Pipeline = "" → outMeta = mes) := by
  obtain ⟨h', f, m, hedit, _, _, hm, _, _, _, hown⟩ :=
    edit_spec e fuel h clientCfg fes mes hF hM hdF hdM
  refine ⟨h', _, _, hedit, holds_of_owns h.length h' m _ hm hown, ?_, ?_⟩
  · intro hp
    simp only [ne_eq, hp, not_false_eq_true, if_true, true_and]
    intro k
    exact getEntry_setEntry mes "pipeline" k _
  · intro hp
    simp [hp]

/-- Witness of C8: the sample settings have the pipeline `ingest-a` and the
sample metadata map has `pipeline: p0`. -/
theorem metadata_pipeline_witness :
    MapStr.holds 0 sampleHeap sampleClientCfg.Processing.Fields sampleFields ∧
    MapStr.holds 0 sampleHeap sampleClientCfg.Processing.Meta sampleMeta ∧
    sampleEditor.settings.Pipeline ≠ "" ∧
    ∃ h' out outMeta, sampleEditor.edit 2 sampleHeap sampleClientCfg = some (h', out, none) ∧
      MapStr.holds sampleHeap.length h' out.Processing.Meta outMeta ∧
      (sampleEditor.settings.Pipeline ≠ "" →
        outMeta = setEntry sampleMeta "pipeline" (.str sampleEditor.settings.Pipeline) ∧
        ∀ k, getEntry outMeta k =
          if k = "pipeline" then some (.str sampleEditor.settings.Pipeline)
          else getEntry sampleMeta k) ∧
      (sampleEditor.settings.Pipeline = "" → outMeta = sampleMeta) :=
  ⟨sample_holds_fields, sample_holds_meta, by decide,
    metadata_pipeline sampleEditor 2 sampleHeap sampleClientCfg sampleFields sampleMeta
      sample_holds_fields sample_holds_meta sample_depth_fields sample_depth_meta⟩

/-! ## The key `event.dataset` -/

theorem split_event_dataset :
    splitDots "event.dataset".data = ["event".data, "dataset".data] := by decide

theorem Put_event_dataset (h : Heap) (f : Nat) (obj : MapObj) (v : Value)
    (hobj : h[f]? = some obj) :
    MapStr.Put h f "event.dataset" v =
      if (mapGet obj "event.dataset").isSome then
        some (h.set f (mapSet obj "event.dataset" v), none)
      else
        match mapGet obj "event" with
        | none =>
          some (((h ++ [[]]).set f (mapSet obj "event" (.map h.length))).set h.length
            [("dataset", v)], none)
        | some (.map d) => (Heap.store h d "dataset" v).map (fun h2 => (h2, none))
        | some (.str _) => some (h, some (Error.put "expected map but type is string"))
        | some (.shared _) =>
          some (h, some (Error.put "expected map but type is slice")) := by
  have hkey : String.mk (joinDots ["event".data, "dataset".data]) = "event.dataset" := by decide
  have hev : String.mk "event".data = "event" := rfl
  have hds : String.mk "dataset".data = "dataset" := rfl
  have hflt : f < h.length := lt_length_of_get h f obj hobj
  simp only [MapStr.Put, split_event_dataset, mapFind, hobj, hkey, hev, hds]
  by_cases hfast : (mapGet obj "event.dataset").isSome = true
  · simp only [hfast, if_true]
    rw [store_of_get h f "event.dataset" v obj hobj]
  · have hfast' : (mapGet obj "event.dataset").isSome = false := by simpa using hfast
    simp only [hfast', Bool.false_eq_true, if_false]
    cases hsub : mapGet obj "event" with
    | none =>
      have hobj1 : (h ++ [([] : MapObj)])[f]? = some obj := by
        rw [get_append_new h f hflt]; exact hobj
      have hnew : ((h ++ [([] : MapObj)]).set f (mapSet obj "event" (.map h.length)))[h.length]? =
          some [] := by
        rw [get_set_ne _ f h.length _ (by omega)]
        exact get_append_last h
      simp only [if_true, store_of_get _ f "event" _ obj hobj1,
        store_of_get _ h.length "dataset" v [] hnew, mapSet]
    | some w =>
      cases w with
      | str t => rfl
      | shared t => rfl
      | map d =>
        simp only []
        cases Heap.store h d "dataset" v <;> rfl

theorem GetValue_event_dataset (h : Heap) (f : Nat) (obj : MapObj) (hobj : h[f]? = some obj) :
    MapStr.GetValue h f "event.dataset" =
      if (mapGet obj "event.dataset").isSome then mapGet obj "event.dataset"
      else
        match mapGet obj "event" with
        | some (.map d) =>
          match h[d]? with
          | some sub => mapGet sub "dataset"
          | none => none
        | _ => none := by
  have hkey : String.mk (joinDots ["event".data, "dataset".data]) = "event.dataset" := by decide
  have hev : String.mk "event".data = "event" := rfl
  have hds : String.mk "dataset".data = "dataset" := rfl
  simp only [MapStr.GetValue, split_event_dataset, mapFind, hobj, hkey, hev, hds]
  by_cases hfast : (mapGet obj "event.dataset").isSome = true
  · simp only [hfast, if_true, hobj]
  · have hfast' : (mapGet obj "event.dataset").isSome = false := by simpa using hfast
    simp only [hfast', Bool.false_eq_true, if_false]
    cases hsub : mapGet obj "event" with
    | none => rfl
    | some w =>
      cases w with
      | str t => rfl
      | shared t => rfl
      | map d => rfl

theorem mapGet_of_entriesHeldBy (lo : Nat) (h : Heap) (k : String) :
    ∀ (es : List (String × Tree)) (obj : MapObj), entriesHeldBy lo h es obj →
      (getEntry es k = none → mapGet obj k = none) ∧
      (∀ t, getEntry es k = some t → ∃ v, mapGet obj k = some v ∧ t.heldBy lo h v)
  | [], obj, hes => by
    rw [entriesHeldBy_nil] at hes
    subst hes
    exact ⟨fun _ => rfl, fun t ht => by simp [getEntry] at ht⟩
  | (k', t') :: es, obj, hes => by
    rw [entriesHeldBy_cons] at hes
    obtain ⟨v, rest, hobj, _, ht, hrest⟩ := hes
    subst hobj
    have ih := mapGet_of_entriesHeldBy lo h k es rest hrest
    by_cases hk : k' = k
    · subst hk
      refine ⟨fun hn => by simp [getEntry] at hn, fun t hg => ?_⟩
      simp only [getEntry, if_true, Option.some.injEq] at hg
      subst hg
      exact ⟨v, by simp [mapGet], ht⟩
    · simpa [getEntry, mapGet, hk] using ih

theorem heldBy_map_value (lo : Nat) (h : Heap) (t : Tree) (d : Nat)
    (ht : t.heldBy lo h (.map d)) : ∃ es, t = .map es := by
  cases t with
  | str s =>
    rw [heldBy_str] at ht
    cases ht
  | shared r =>
    rw [heldBy_shared] at ht
    cases ht
  | map es => exact ⟨es, rfl⟩

theorem heldBy_shared_value (lo : Nat) (h : Heap) (t : Tree) (r : Nat)
    (ht : t.heldBy lo h (.shared r)) : t = .shared r := by
  cases t with
  | str s =>
    rw [heldBy_str] at ht
    cases ht
  | shared r' =>
    rw [heldBy_shared] at ht
    injection ht with hr
    rw [hr]
  | map es =>
    rw [heldBy_map] at ht
    obtain ⟨a, obj, hv, _⟩ := ht
    cases hv

theorem heldBy_str_value (lo : Nat) (h : Heap) (t : Tree) (s : String)
    (ht : t.heldBy lo h (.str s)) : t = .str s := by
  cases t with
  | str s' =>
    rw [heldBy_str] at ht
    injection ht with hs
    rw [hs]
  | shared r =>
    rw [heldBy_shared] at ht
    cases ht
  | map es =>
    rw [heldBy_map] at ht
    obtain ⟨a, obj, hv, _⟩ := ht
    cases hv

theorem inbound_event_dataset (h : Heap) (a : Nat) (fes : List (String × Tree)) (old : Value)
    (hF : MapStr.holds 0 h (some a) fes)
    (hget : MapStr.GetValue h a "event.dataset" = some old) :
    (getEntry fes "event.dataset").isSome = true ∨
      ∃ es, getEntry fes "event" = some (.map es) := by
  simp only [MapStr.holds] at hF
  rw [heldBy_map] at hF
  obtain ⟨a0, obj, hva, _, hobj, hes⟩ := hF
  have ha : a = a0 := by injection hva
  subst ha
  rw [GetValue_event_dataset h a obj hobj] at hget
  by_cases hfast : (mapGet obj "event.dataset").isSome = true
  · left
    cases hg : getEntry fes "event.dataset" with
    | some t => rfl
    | none =>
      rw [(mapGet_of_entriesHeldBy 0 h "event.dataset" fes obj hes).1 hg] at hfast
      simp at hfast
  · right
    have hfast' : (mapGet obj "event.dataset").isSome = false := by simpa using hfast
    simp only [hfast', Bool.false_eq_true, if_false] at hget
    cases hg : getEntry fes "event" with
    | none =>
      rw [(mapGet_of_entriesHeldBy 0 h "event" fes obj hes).1 hg] at hget
      simp at hget
    | some t =>
      obtain ⟨v, hv, ht⟩ := (mapGet_of_entriesHeldBy 0 h "event" fes obj hes).2 t hg
      rw [hv] at hget
      cases v with
      | str s => simp at hget
      | shared r => simp at hget
      | map d =>
        obtain ⟨es, hte⟩ := heldBy_map_value 0 h t d ht
        exact ⟨es, by rw [hte]⟩

theorem edit_steps {EM PC R : Type} (e : ConfigEditor EM PC) (fuel : Nat) (h : Heap)
    (clientCfg : ClientConfig EM R) (fes mes : List (String × Tree))
    (hF : MapStr.holds 0 h clientCfg.Processing.Fields fes)
    (hM : MapStr.holds 0 h clientCfg.Processing.Meta mes)
    (hdF : (Tree.map fes).depth ≤ fuel) (hdM : (Tree.map mes).depth ≤ fuel) :
    ∃ h1 objF h2 r h' m,
      h.length < h1.length ∧ h1[h.length]? = some objF ∧
      entriesHeldBy (h.length + 1) h1 fes objF ∧
      MapStr.Put h1 h.length "event.dataset" (.str e.dataset) = some (h2, r) ∧
      h1.length ≤ h2.length ∧
      e.edit fuel h clientCfg =
        some (h',
          { Processing :=
              { EventMetadata := e.settings.EventMetadata
                Fields := some h.length
                Meta := some m
                Processor := some (e.assemble clientCfg.Processing.Processor)
                KeepNull := e.settings.KeepNull
                DisableHost := e.settings.PublisherPipeline.DisableHost }
            rest := clientCfg.rest },
          none) ∧
      (∀ b, b < h2.length → h'[b]? = h2[b]?) := by
  obtain ⟨h1, objF, hc1, hoF, heF⟩ := Clone_content fuel 0 h _ fes hF hdF
  obtain ⟨_, hlt1, hfr1⟩ := Clone_frame fuel h h1 _ _ hc1
  have hf1 := Clone_fresh h.length fuel h h1 _ _ (Nat.le_refl _) (freshFrom_length h) hc1
  obtain ⟨h2, r, hp, hf2, hlen2, hfr2⟩ :=
    Put_spec h.length h1 h.length "event.dataset" (.str e.dataset) hf1 (Nat.le_refl _) hlt1
      (fun b hb => by cases hb)
  have hM2 : MapStr.holds 0 h2 clientCfg.Processing.Meta mes := by
    refine holds_mono 0 0 h h2 _ _ (Nat.le_refl _) ?_ hM
    intro a obj _ ho
    have halt := lt_length_of_get h a obj ho
    rw [hfr2 a halt, hfr1 a halt]
    exact ho
  obtain ⟨h3, objM, hc3, hoM, heM⟩ := Clone_content fuel 0 h2 _ mes hM2 hdM
  obtain ⟨_, hlt3, hfr3⟩ := Clone_frame fuel h2 h3 _ _ hc3
  by_cases hpipe : e.settings.Pipeline = ""
  · refine ⟨h1, objF, h2, r, h3, h2.length, hlt1, hoF, heF, hp, hlen2, ?_, hfr3⟩
    simp [ConfigEditor.edit, hc1, hp, hc3, hpipe]
  · have hst := store_of_get h3 h2.length "pipeline" (.str e.settings.Pipeline) objM hoM
    refine ⟨h1, objF, h2, r,
      h3.set h2.length (mapSet objM "pipeline" (.str e.settings.Pipeline)), h2.length,
      hlt1, hoF, heF, hp, hlen2, ?_, ?_⟩
    · simp [ConfigEditor.edit, hc1, hp, hc3, hpipe, Put_pipeline, hst]
    · intro b hb
      rw [get_set_ne h3 h2.length b _ (by omega)]
      exact hfr3 b hb

theorem edit_event_dataset {EM PC R : Type} (e : ConfigEditor EM PC) (fuel : Nat) (h : Heap)
    (clientCfg : ClientConfig EM R) (fes mes : List (String × Tree))
    (hF : MapStr.holds 0 h clientCfg.Processing.Fields fes)
    (hM : MapStr.holds 0 h clientCfg.Processing.Meta mes)
    (hdF : (Tree.map fes).depth ≤ fuel) (hdM : (Tree.map mes).depth ≤ fuel) :
    ∃ h' out f, e.edit fuel h clientCfg = some (h', out, none) ∧
      out.Processing.Fields = some f ∧
      MapStr.GetValue h' f "event.dataset" = eventDatasetAfter fes e.dataset := by
  obtain ⟨h1, objF, h2, r, h', m, hlt1, hoF, heF, hp, hlen2, hedit, hfr⟩ :=
    edit_steps e fuel h clientCfg fes mes hF hM hdF hdM
  refine ⟨h', _, h.length, hedit, rfl, ?_⟩
  rw [Put_event_dataset h1 h.length objF _ hoF] at hp
  have hflat := mapGet_of_entriesHeldBy (h.length + 1) h1 "event.dataset" fes objF heF
  have hevent := mapGet_of_entriesHeldBy (h.length + 1) h1 "event" fes objF heF
  have hfl2 : h.length < h2.length := by omega
  cases hg : getEntry fes "event.dataset" with
  | some t =>
    obtain ⟨w, hw, _⟩ := hflat.2 t hg
    simp only [hw, Option.isSome_some, if_true, Option.some.injEq, Prod.mk.injEq] at hp
    have hobj' : h'[h.length]? = some (mapSet objF "event.dataset" (.str e.dataset)) := by
      rw [hfr _ hfl2, ← hp.1]
      exact get_set_self h1 _ objF _ hoF
    rw [GetValue_event_dataset h' _ _ hobj']
    simp [mapGet_mapSet_self, eventDatasetAfter, hg]
  | none =>
    have hnone := hflat.1 hg
    simp only [hnone, Option.isSome_none, Bool.false_eq_true, if_false] at hp
    cases hge : getEntry fes "event" with
    | none =>
      have hen := hevent.1 hge
      simp only [hen, Option.some.injEq, Prod.mk.injEq] at hp
      have hl2 : h2.length = h1.length + 1 := by
        rw [← hp.1]
        simp
      have hroot : h'[h.length]? =
          some (mapSet objF "event" (.map h1.length)) := by
        rw [hfr _ hfl2, ← hp.1, get_set_ne _ h1.length h.length _ (by omega)]
        refine get_set_self _ _ objF _ ?_
        rw [get_append_new h1 _ hlt1]
        exact hoF
      have hsub : h'[h1.length]? = some [("dataset", .str e.dataset)] := by
        rw [hfr _ (by omega), ← hp.1]
        refine get_set_self _ _ [] _ ?_
        rw [get_set_ne _ h.length h1.length _ (by omega)]
        exact get_append_last h1
      rw [GetValue_event_dataset h' _ _ hroot]
      have hk1 : mapGet (mapSet objF "event" (.map h1.length)) "event.dataset" = none := by
        rw [mapGet_mapSet_ne objF "event" "event.dataset" _ (by decide)]
        exact hnone
      simp [hk1, mapGet_mapSet_self, hsub, mapGet, eventDatasetAfter, hg, hge]
    | some t =>
      obtain ⟨w, hw, ht⟩ := hevent.2 t hge
      cases w with
      | str s =>
        have hts := heldBy_str_value _ _ t s ht
        subst hts
        simp only [hw, Option.some.injEq, Prod.mk.injEq] at hp
        have hroot : h'[h.length]? = some objF := by
          rw [hfr _ hfl2, ← hp.1]
          exact hoF
        rw [GetValue_event_dataset h' _ _ hroot]
        simp [hnone, hw, eventDatasetAfter, hg, hge]
      | shared s =>
        have hts := heldBy_shared_value _ _ t s ht
        subst hts
        simp only [hw, Option.some.injEq, Prod.mk.injEq] at hp
        have hroot : h'[h.length]? = some objF := by
          rw [hfr _ hfl2, ← hp.1]
          exact hoF
        rw [GetValue_event_dataset h' _ _ hroot]
        simp [hnone, hw, eventDatasetAfter, hg, hge]
      | map d =>
        obtain ⟨es, hte⟩ := heldBy_map_value _ _ t d ht
        subst hte
        rw [heldBy_map] at ht
        obtain ⟨a, od, hva, hla, hod, _⟩ := ht
        have hda : d = a := by injection hva
        subst hda
        simp only [hw, store_of_get h1 d "dataset" _ od hod, Option.map_some',
          Option.some.injEq, Prod.mk.injEq] at hp
        have hdl : d < h1.length := lt_length_of_get h1 d od hod
        have hroot : h'[h.length]? = some objF := by
          rw [hfr _ hfl2, ← hp.1, get_set_ne h1 d h.length _ (by omega)]
          exact hoF
        have hsub : h'[d]? = some (mapSet od "dataset" (.str e.dataset)) := by
          rw [hfr _ (by omega), ← hp.1]
          exact get_set_self h1 d od _ hod
        rw [GetValue_event_dataset h' _ _ hroot]
        simp [hnone, hw, hsub, mapGet_mapSet_self, eventDatasetAfter, hg, hge]

/-- C11: when unpacking the settings, building the index processor or building
the user processors fails, `newCommonPublishConfigs` returns that error and no
editor, and `Create` returns no runner and the same error without calling
`WithClientConfigEdit` or `newMonitor`. Unpacking is checked first, then the index
processor, then the user processors. When all three succeed, both collaborators
are called. -/
theorem create_all_or_nothing {Cfg EM PC P S M : Type}
    (Unpack : Cfg → Except Error (publishSettings EM PC))
    (New : PC → Except Error (Option Processors))
    (WithClientConfigEdit : P → ConfigEditor EM PC → P)
    (newMonitor : Cfg → Option P → Option S → Bool → Option M × Option Error)
    (f : RunnerFactory S) (p : P) (c : Cfg) :
    (∀ err, Unpack c = .error err →
      newCommonPublishConfigs Unpack New f.info c = .error err ∧
      f.Create Unpack New WithClientConfigEdit newMonitor p c = ((none, some err), [])) ∧
    (∀ s err, Unpack c = .ok s → setupIndexProcessor f.info s = .error err →
      newCommonPublishConfigs Unpack New f.info c = .error err ∧
      f.Create Unpack New WithClientConfigEdit newMonitor p c = ((none, some err), [])) ∧
    (∀ s ip err, Unpack c = .ok s → setupIndexProcessor f.info s = .ok ip →
      New s.Processors = .error err →
      newCommonPublishConfigs Unpack New f.info c = .error err ∧
      f.Create Unpack New WithClientConfigEdit newMonitor p c = ((none, some err), [])) ∧
    (∀ e, newCommonPublishConfigs Unpack New f.info c = .ok e →
      f.Create Unpack New WithClientConfigEdit newMonitor p c =
        (newMonitor c (some (WithClientConfigEdit p e)) f.sched f.allowWatches,
          [Collaborator.WithClientConfigEdit, Collaborator.newMonitor])) := by
  refine ⟨?_, ?_, ?_, ?_⟩
  · intro err hu
    have hn : newCommonPublishConfigs Unpack New f.info c = .error err := by
      simp [newCommonPublishConfigs, hu]
    exact ⟨hn, by simp [RunnerFactory.Create, hn]⟩
  · intro s err hu hs
    have hn : newCommonPublishConfigs Unpack New f.info c = .error err := by
      simp [newCommonPublishConfigs, hu, hs]
    exact ⟨hn, by simp [RunnerFactory.Create, hn]⟩
  · intro s ip err hu hs hp
    have hn : newCommonPublishConfigs Unpack New f.info c = .error err := by
      simp [newCommonPublishConfigs, hu, hs, hp]
    exact ⟨hn, by simp [RunnerFactory.Create, hn]⟩
  · intro e he
    simp [RunnerFactory.Create, he]

/-- Witness of C11: a failing unpack, the sample settings whose data-stream name
does not compile, and an invalid `processors` setting. -/
theorem create_all_or_nothing_witness :
    sampleFactory.Create failingUnpack sampleNew sampleWithClientConfigEdit sampleNewMonitor
        [] sampleSettings = ((none, some (Error.unpack "wrong type")), []) ∧
    sampleFactory.Create sampleUnpack failingNew sampleWithClientConfigEdit sampleNewMonitor
        [] openExpansionSettings =
      ((none, some (Error.datastream "synthetics-%\x7b-default"
        (Error.compile "missing closing brace"))), []) ∧
    sampleFactory.Create sampleUnpack failingNew sampleWithClientConfigEdit sampleNewMonitor
        [] sampleSettings = ((none, some (Error.processors "unknown processor")), []) ∧
    sampleFactory.Create sampleUnpack sampleNew sampleWithClientConfigEdit sampleNewMonitor
        [] sampleSettings =
      ((some "monitor", none), [Collaborator.WithClientConfigEdit, Collaborator.newMonitor]) :=
  ⟨((create_all_or_nothing failingUnpack sampleNew sampleWithClientConfigEdit sampleNewMonitor
      sampleFactory [] sampleSettings).1 _ rfl).2,
    ((create_all_or_nothing sampleUnpack failingNew sampleWithClientConfigEdit sampleNewMonitor
      sampleFactory [] openExpansionSettings).2.1 _ _ rfl rfl).2,
    ((create_all_or_nothing sampleUnpack failingNew sampleWithClientConfigEdit sampleNewMonitor
      sampleFactory [] sampleSettings).2.2.1 _ _ _ rfl rfl rfl).2,
    (create_all_or_nothing sampleUnpack sampleNew sampleWithClientConfigEdit sampleNewMonitor
      sampleFactory [] sampleSettings).2.2.2 sampleEditor rfl⟩

/-- C12 fails on the code: for a config whose `processors` setting is invalid
(`processors.New` fails, so `Create` fails) and whose monitor fields are valid,
`CheckConfig` returns no error. Two calls of `CheckConfig` on the same config
give the same result. -/
theorem check_config_accepts_invalid_processors :
    failingNew sampleSettings.Processors = .error (Error.processors "unknown processor") ∧
    sampleFactory.Create sampleUnpack failingNew sampleWithClientConfigEdit sampleNewMonitor
        [] sampleSettings = ((none, some (Error.processors "unknown processor")), []) ∧
    sampleFactory.CheckConfig (P := List String) sampleNewMonitor sampleSettings = none ∧
    sampleFactory.CheckConfig (P := List String) sampleNewMonitor sampleSettings =
      sampleFactory.CheckConfig (P := List String) sampleNewMonitor sampleSettings :=
  ⟨rfl, rfl, rfl, rfl⟩

theorem plain_holds_fields :
    MapStr.holds 0 plainEventHeap plainEventCfg.Processing.Fields [("event", .str "x")] :=
  ⟨0, _, rfl, Nat.le_refl _, rfl, ⟨_, _, rfl, rfl, rfl, rfl⟩⟩

theorem plain_holds_meta : MapStr.holds 0 plainEventHeap plainEventCfg.Processing.Meta [] :=
  rfl

theorem edit_error_none {EM PC R : Type} (e : ConfigEditor EM PC) (fuel : Nat) (h : Heap)
    (clientCfg : ClientConfig EM R) (r : Heap × ClientConfig EM R × Option Error)
    (hr : e.edit fuel h clientCfg = some r) :
    r.2.2 = none ∧ r.2.1.rest = clientCfg.rest ∧
      r.2.1.Processing.Processor = some (e.assemble clientCfg.Processing.Processor) := by
  unfold ConfigEditor.edit at hr
  cases hc1 : MapStr.Clone fuel h clientCfg.Processing.Fields with
  | none => simp [hc1] at hr
  | some p1 =>
    obtain ⟨h1, f⟩ := p1
    simp only [hc1] at hr
    cases hp : MapStr.Put h1 f "event.dataset" (.str e.dataset) with
    | none => simp [hp] at hr
    | some p2 =>
      obtain ⟨h2, r2⟩ := p2
      simp only [hp] at hr
      cases hc3 : MapStr.Clone fuel h2 clientCfg.Processing.Meta with
      | none => simp [hc3] at hr
      | some p3 =>
        obtain ⟨h3, m⟩ := p3
        simp only [hc3] at hr
        by_cases hpipe : e.settings.Pipeline = ""
        · simp only [hpipe, ne_eq, not_true_eq_false, if_false, Option.some.injEq] at hr
          subst hr
          exact ⟨rfl, rfl, rfl⟩
        · simp only [hpipe, ne_eq, not_false_eq_true, if_true] at hr
          cases hp2 : MapStr.Put h3 m "pipeline" (.str e.settings.Pipeline) with
          | none => simp [hp2] at hr
          | some p4 =>
            simp only [hp2, Option.map_some', Option.some.injEq] at hr
            subst hr
            exact ⟨rfl, rfl, rfl⟩

/-- C13: the editor never returns an error. On every inbound configuration with
finite maps it returns the edited configuration and a nil error, and whenever it
returns at all the error is nil. This holds for every editor, so for the ones
made by `newCommonPublishConfigs`. -/
theorem editor_returns_no_error {EM PC R : Type} (e : ConfigEditor EM PC) (fuel : Nat)
    (h : Heap) (clientCfg : ClientConfig EM R) (fes mes : List (String × Tree))
    (hF : MapStr.holds 0 h clientCfg.Processing.Fields fes)
    (hM : MapStr.holds 0 h clientCfg.Processing.Meta mes)
    (hdF : (Tree.map fes).depth ≤ fuel) (hdM : (Tree.map mes).depth ≤ fuel) :
    (∃ h' out, e.edit fuel h clientCfg = some (h', out, none)) ∧
    ∀ (fuel0 : Nat) (h0 : Heap) (cfg0 : ClientConfig EM R)
      (r : Heap × ClientConfig EM R × Option Error),
      e.edit fuel0 h0 cfg0 = some r → r.2.2 = none := by
  obtain ⟨h', f, m, hedit, _⟩ := edit_spec e fuel h clientCfg fes mes hF hM hdF hdM
  exact ⟨⟨h', _, hedit⟩, fun fuel0 h0 cfg0 r hr => (edit_error_none e fuel0 h0 cfg0 r hr).1⟩

/-- Witness of C13 on the sample editor, made by `newCommonPublishConfigs`. -/
theorem editor_returns_no_error_witness :
    newCommonPublishConfigs sampleUnpack sampleNew sampleInfo sampleSettings = .ok sampleEditor ∧
    MapStr.holds 0 sampleHeap sampleClientCfg.Processing.Fields sampleFields ∧
    MapStr.holds 0 sampleHeap sampleClientCfg.Processing.Meta sampleMeta ∧
    ∃ h' out, sampleEditor.edit 2 sampleHeap sampleClientCfg = some (h', out, none) :=
  ⟨rfl, sample_holds_fields, sample_holds_meta,
    (editor_returns_no_error sampleEditor 2 sampleHeap sampleClientCfg sampleFields sampleMeta
      sample_holds_fields sample_holds_meta sample_depth_fields sample_depth_meta).1⟩

/-- C14 as stated fails: the sample settings have a data-stream block with the
dataset `custom` and the legacy dataset `legacy`, and the resolved dataset is
`legacy`, not `custom`. -/
theorem legacy_dataset_counterexample :
    sampleSettings.DataStream = some { Namespace := "", Dataset := "custom", Typ := "" } ∧
    sampleSettings.DataSet = "legacy" ∧
    newCommonPublishConfigs sampleUnpack sampleNew sampleInfo sampleSettings = .ok sampleEditor ∧
    sampleEditor.dataset = "legacy" ∧ sampleEditor.dataset ≠ "custom" ∧
    resolveDataset sampleSettings ≠ "custom" :=
  ⟨rfl, rfl, rfl, rfl, by decide, by decide⟩

/-- C14, amended: the legacy `dataset` option is the highest-precedence dataset
source. With a data-stream block whose dataset is non-empty, the resolved
dataset is `data_stream.dataset` when the legacy field is empty, and the legacy
field when that is non-empty. -/
theorem legacy_dataset_precedence {Cfg EM PC : Type}
    (Unpack : Cfg → Except Error (publishSettings EM PC))
    (New : PC → Except Error (Option Processors)) (info : Info) (cfg : Cfg)
    (e : ConfigEditor EM PC) (ds : datastream)
    (hnew : newCommonPublishConfigs Unpack New info cfg = .ok e)
    (hds : e.settings.DataStream = some ds) (hne : ds.Dataset ≠ "") :
    (e.settings.DataSet = "" → e.dataset = ds.Dataset) ∧
    (e.settings.DataSet ≠ "" → e.dataset = e.settings.DataSet) := by
  obtain ⟨_, _, _, hd⟩ := newCommonPublishConfigs_ok Unpack New info cfg e hnew
  constructor
  · intro h1
    rw [hd]
    simp [resolveDataset, h1, hds, hne]
  · intro h1
    rw [hd]
    simp [resolveDataset, h1]

/-- Witness of the amended C14 on the sample settings. -/
theorem legacy_dataset_precedence_witness :
    newCommonPublishConfigs sampleUnpack sampleNew sampleInfo sampleSettings = .ok sampleEditor ∧
    sampleEditor.settings.DataSet ≠ "" ∧
    sampleEditor.dataset = sampleEditor.settings.DataSet :=
  ⟨rfl, by decide,
    (legacy_dataset_precedence sampleUnpack sampleNew sampleInfo sampleSettings sampleEditor
      { Namespace := "", Dataset := "custom", Typ := "" } rfl rfl (by decide)).2 (by decide)⟩

/-- C15: the editor changes nothing of the configuration but the six processing
members: everything else of the returned configuration is what the inbound one
carried. -/
theorem editor_frame {EM PC R : Type} (e : ConfigEditor EM PC) (fuel : Nat)
    (h : Heap) (clientCfg : ClientConfig EM R) (fes mes : List (String × Tree))
    (hF : MapStr.holds 0 h clientCfg.Processing.Fields fes)
    (hM : MapStr.holds 0 h clientCfg.Processing.Meta mes)
    (hdF : (Tree.map fes).depth ≤ fuel) (hdM : (Tree.map mes).depth ≤ fuel) :
    (∃ h' out, e.edit fuel h clientCfg = some (h', out, none) ∧ out.rest = clientCfg.rest) ∧
    ∀ (fuel0 : Nat) (h0 : Heap) (cfg0 : ClientConfig EM R)
      (r : Heap × ClientConfig EM R × Option Error),
      e.edit fuel0 h0 cfg0 = some r → r.2.1.rest = cfg0.rest := by
  obtain ⟨h', f, m, hedit, _⟩ := edit_spec e fuel h clientCfg fes mes hF hM hdF hdM
  exact ⟨⟨h', _, hedit, rfl⟩,
    fun fuel0 h0 cfg0 r hr => (edit_error_none e fuel0 h0 cfg0 r hr).2.1⟩

/-- Witness of C15 on the sample values. -/
theorem editor_frame_witness :
    MapStr.holds 0 sampleHeap sampleClientCfg.Processing.Fields sampleFields ∧
    MapStr.holds 0 sampleHeap sampleClientCfg.Processing.Meta sampleMeta ∧
    ∃ h' out, sampleEditor.edit 2 sampleHeap sampleClientCfg = some (h', out, none) ∧
      out.rest = sampleClientCfg.rest :=
  ⟨sample_holds_fields, sample_holds_meta,
    (editor_frame sampleEditor 2 sampleHeap sampleClientCfg sampleFields sampleMeta
      sample_holds_fields sample_holds_meta sample_depth_fields sample_depth_meta).1⟩

theorem eventDatasetAfter_cases (fes : List (String × Tree)) (dataset : String) :
    eventDatasetAfter fes dataset = some (.str dataset) ∨ eventDatasetAfter fes dataset = none := by
  unfold eventDatasetAfter
  split
  · exact Or.inl rfl
  · split
    · exact Or.inr rfl
    · exact Or.inr rfl
    · exact Or.inl rfl

theorem resolveDataset_ne_empty {EM PC : Type} (s : publishSettings EM PC) :
    resolveDataset s ≠ "" := by
  unfold resolveDataset
  by_cases h1 : s.DataSet = ""
  · cases hds : s.DataStream with
    | none => simp [h1]
    | some ds =>
      by_cases h2 : ds.Dataset = ""
      · simp [h1, h2]
      · simp [h1, h2]
  · simp [h1]

/-- C16: the index name and the `event.dataset` tag are resolved independently.
The index processor does not depend on the legacy `dataset` field. With a
data-stream block whose dataset is empty and an empty legacy `dataset`, the
dataset part of the index name is `generic` while the editor's dataset is
`uptime`; with `dataset: legacy` and `data_stream.dataset: custom` the index name
has `custom` while the editor's dataset is `legacy`. The editor's dataset is what
`event.dataset` reads in the returned fields map (unless the inbound map has a
value that is not a map under `event`). -/
theorem index_and_dataset_independent {Cfg EM PC R : Type}
    (Unpack : Cfg → Except Error (publishSettings EM PC))
    (New : PC → Except Error (Option Processors)) (info : Info) (cfg : Cfg)
    (e : ConfigEditor EM PC) (ds : datastream)
    (hnew : newCommonPublishConfigs Unpack New info cfg = .ok e)
    (hds : e.settings.DataStream = some ds) :
    (∀ legacy : String,
      setupIndexProcessor info { e.settings with DataSet := legacy } =
        setupIndexProcessor info e.settings) ∧
    (e.settings.DataSet = "" → ds.Dataset = "" →
      datastreamIndex ds =
        (if ds.Typ = "" then "synthetics" else ds.Typ) ++ "-" ++ "generic" ++ "-" ++
          (if ds.Namespace = "" then "default" else ds.Namespace) ∧
      e.dataset = "uptime") ∧
    (e.settings.DataSet = "legacy" → ds.Dataset = "custom" →
      datastreamIndex ds =
        (if ds.Typ = "" then "synthetics" else ds.Typ) ++ "-" ++ "custom" ++ "-" ++
          (if ds.Namespace = "" then "default" else ds.Namespace) ∧
      e.dataset = "legacy") ∧
    (∀ (fuel : Nat) (h : Heap) (clientCfg : ClientConfig EM R) (fes mes : List (String × Tree)),
      MapStr.holds 0 h clientCfg.Processing.Fields fes →
      MapStr.holds 0 h clientCfg.Processing.Meta mes →
      (Tree.map fes).depth ≤ fuel → (Tree.map mes).depth ≤ fuel →
      ∃ h' out f, e.edit fuel h clientCfg = some (h', out, none) ∧
        out.Processing.Fields = some f ∧
        MapStr.GetValue h' f "event.dataset" = eventDatasetAfter fes e.dataset) := by
  obtain ⟨_, _, _, hd⟩ := newCommonPublishConfigs_ok Unpack New info cfg e hnew
  refine ⟨fun legacy => rfl, ?_, ?_, ?_⟩
  · intro h1 h2
    refine ⟨by simp [datastreamIndex, h2], ?_⟩
    rw [hd]
    simp [resolveDataset, h1, hds, h2]
  · intro h1 h2
    refine ⟨by simp [datastreamIndex, h2], ?_⟩
    rw [hd]
    simp [resolveDataset, h1]
  · intro fuel h clientCfg fes mes hF hM hdF hdM
    exact edit_event_dataset e fuel h clientCfg fes mes hF hM hdF hdM

/-- Witness of C16: the index name `synthetics-generic-default` with the dataset
`uptime`, and the index name `synthetics-custom-default` with the dataset
`legacy`, which `event.dataset` reads after the editor ran on the sample values. -/
theorem index_and_dataset_independent_witness :
    newCommonPublishConfigs sampleUnpack sampleNew sampleInfo emptyDatasetSettings =
      .ok emptyDatasetEditor ∧
    (datastreamIndex { Namespace := "", Dataset := "", Typ := "" } =
        "synthetics" ++ "-" ++ "generic" ++ "-" ++ "default" ∧
      emptyDatasetEditor.dataset = "uptime") ∧
    newCommonPublishConfigs sampleUnpack sampleNew sampleInfo sampleSettings = .ok sampleEditor ∧
    (datastreamIndex { Namespace := "", Dataset := "custom", Typ := "" } =
        "synthetics" ++ "-" ++ "custom" ++ "-" ++ "default" ∧
      sampleEditor.dataset = "legacy") ∧
    ∃ h' out f, sampleEditor.edit 2 sampleHeap sampleClientCfg = some (h', out, none) ∧
      out.Processing.Fields = some f ∧
      MapStr.GetValue h' f "event.dataset" = eventDatasetAfter sampleFields sampleEditor.dataset :=
  ⟨rfl,
    (index_and_dataset_independent (R := Nat) sampleUnpack sampleNew sampleInfo
      emptyDatasetSettings emptyDatasetEditor
      { Namespace := "", Dataset := "", Typ := "" } rfl rfl).2.1 rfl rfl,
    rfl,
    (index_and_dataset_independent (R := Nat) sampleUnpack sampleNew sampleInfo sampleSettings
      sampleEditor { Namespace := "", Dataset := "custom", Typ := "" } rfl rfl).2.2.1 rfl rfl,
    (index_and_dataset_independent sampleUnpack sampleNew sampleInfo sampleSettings
      sampleEditor { Namespace := "", Dataset := "custom", Typ := "" } rfl rfl).2.2.2
      2 sampleHeap sampleClientCfg sampleFields sampleMeta sample_holds_fields sample_holds_meta
      sample_depth_fields sample_depth_meta⟩

/-- The dataset of an editor made by `newCommonPublishConfigs` is never the empty
string, and it is a value of the editor, not of the invocation: after every
invocation `event.dataset` of the returned fields map reads no other value than
this dataset, and it reads this dataset whenever the inbound fields map carried
an `event.dataset`. -/
theorem dataset_never_empty {Cfg EM PC R : Type}
    (Unpack : Cfg → Except Error (publishSettings EM PC))
    (New : PC → Except Error (Option Processors)) (info : Info) (cfg : Cfg)
    (e : ConfigEditor EM PC)
    (hnew : newCommonPublishConfigs Unpack New info cfg = .ok e) :
    e.dataset ≠ "" ∧
    (∀ (fuel : Nat) (h : Heap) (clientCfg : ClientConfig EM R) (fes mes : List (String × Tree)),
      MapStr.holds 0 h clientCfg.Processing.Fields fes →
      MapStr.holds 0 h clientCfg.Processing.Meta mes →
      (Tree.map fes).depth ≤ fuel → (Tree.map mes).depth ≤ fuel →
      ∃ h' out f, e.edit fuel h clientCfg = some (h', out, none) ∧
        out.Processing.Fields = some f ∧
        (∀ v, MapStr.GetValue h' f "event.dataset" = some v → v = .str e.dataset) ∧
        (∀ a old, clientCfg.Processing.Fields = some a →
          MapStr.GetValue h a "event.dataset" = some old →
          MapStr.GetValue h' f "event.dataset" = some (.str e.dataset))) := by
  obtain ⟨_, _, _, hd⟩ := newCommonPublishConfigs_ok Unpack New info cfg e hnew
  refine ⟨by rw [hd]; exact resolveDataset_ne_empty _, ?_⟩
  intro fuel h clientCfg fes mes hF hM hdF hdM
  obtain ⟨h', out, f, hedit, hf, hget⟩ :=
    edit_event_dataset e fuel h clientCfg fes mes hF hM hdF hdM
  refine ⟨h', out, f, hedit, hf, ?_, ?_⟩
  · intro v hv
    rw [hget] at hv
    rcases eventDatasetAfter_cases fes e.dataset with h1 | h1
    · rw [h1] at hv
      injection hv with hv
      exact hv.symm
    · rw [h1] at hv
      cases hv
  · intro a old ha hold
    rw [hget]
    rw [ha] at hF
    rcases inbound_event_dataset h a fes old hF hold with h1 | ⟨es, h1⟩
    · simp [eventDatasetAfter, h1]
    · unfold eventDatasetAfter
      split
      · rfl
      · simp [h1]

/-- The sample editor has the dataset `legacy`; the sample inbound fields map
carries `event.dataset: old`, and the returned one reads `legacy`. -/
theorem dataset_never_empty_witness :
    newCommonPublishConfigs sampleUnpack sampleNew sampleInfo sampleSettings = .ok sampleEditor ∧
    MapStr.GetValue sampleHeap 0 "event.dataset" = some (.str "old") ∧
    sampleEditor.dataset ≠ "" ∧
    ∃ h' out f, sampleEditor.edit 2 sampleHeap sampleClientCfg = some (h', out, none) ∧
      out.Processing.Fields = some f ∧
      (∀ v, MapStr.GetValue h' f "event.dataset" = some v → v = .str sampleEditor.dataset) ∧
      (∀ a old, sampleClientCfg.Processing.Fields = some a →
        MapStr.GetValue sampleHeap a "event.dataset" = some old →
        MapStr.GetValue h' f "event.dataset" = some (.str sampleEditor.dataset)) :=
  ⟨rfl, rfl,
    (dataset_never_empty (R := Nat) sampleUnpack sampleNew sampleInfo sampleSettings sampleEditor
      rfl).1,
    (dataset_never_empty sampleUnpack sampleNew sampleInfo sampleSettings sampleEditor rfl).2
      2 sampleHeap sampleClientCfg sampleFields sampleMeta sample_holds_fields sample_holds_meta
      sample_depth_fields sample_depth_meta⟩

/-- C17 fails on the code. The dataset of the sample editor is `legacy`, not
empty, and on the sample configuration the editor writes it to `event.dataset`;
on the inbound fields map with a plain value under `event` the same editor
returns a nil error and writes no `event.dataset` at all, because the error of
`fields.Put` is dropped. -/
theorem event_dataset_write_dropped :
    newCommonPublishConfigs sampleUnpack sampleNew sampleInfo sampleSettings = .ok sampleEditor ∧
    sampleEditor.dataset = "legacy" ∧
    (sampleEditor.edit 2 sampleHeap sampleClientCfg).bind
        (fun r => r.2.1.Processing.Fields.bind
          (fun f => MapStr.GetValue r.1 f "event.dataset")) = some (.str "legacy") ∧
    (sampleEditor.edit 1 plainEventHeap plainEventCfg).map (fun r => r.2.2) = some none ∧
    (sampleEditor.edit 1 plainEventHeap plainEventCfg).bind
        (fun r => r.2.1.Processing.Fields.bind
          (fun f => MapStr.GetValue r.1 f "event.dataset")) = none :=
  ⟨rfl, rfl, rfl, rfl, rfl⟩

/-- C18: the returned processor chain is always a list that the editor built,
also without inbound chain: the index processor if there is one, then the
inbound chain as one element if there is one, then the user processors. Its
length is the sum of the three counts, and it is empty when there is no index
processor, no inbound chain and no user processor. -/
theorem outbound_chain_length {EM PC R : Type} (e : ConfigEditor EM PC) (fuel : Nat)
    (h : Heap) (clientCfg : ClientConfig EM R) (fes mes : List (String × Tree))
    (hF : MapStr.holds 0 h clientCfg.Processing.Fields fes)
    (hM : MapStr.holds 0 h clientCfg.Processing.Meta mes)
    (hdF : (Tree.map fes).depth ≤ fuel) (hdM : (Tree.map mes).depth ≤ fuel) :
    ∃ h' out procs, e.edit fuel h clientCfg = some (h', out, none) ∧
      out.Processing.Processor = some procs ∧
      procs =
        (match e.indexProcessor with
         | some indexProcessor => [indexProcessor]
         | none => []) ++
        (match clientCfg.Processing.Processor with
         | some lst => [Processor.list lst]
         | none => []) ++
        (match e.userProcessors with
         | some userProcessors => userProcessors
         | none => []) ∧
      procs.length =
        (if e.indexProcessor.isSome then 1 else 0) +
        (if clientCfg.Processing.Processor.isSome then 1 else 0) +
        (match e.userProcessors with
         | some userProcessors => userProcessors.length
         | none => 0) ∧
      (e.indexProcessor = none → clientCfg.Processing.Processor = none →
        (e.userProcessors = some [] ∨ e.userProcessors = none) → procs = []) := by
  obtain ⟨h', f, m, hedit, _⟩ := edit_spec e fuel h clientCfg fes mes hF hM hdF hdM
  refine ⟨h', _, e.assemble clientCfg.Processing.Processor, hedit, rfl, ?_, ?_, ?_⟩
  · simp only [ConfigEditor.assemble, NewList]
    cases e.indexProcessor <;> cases clientCfg.Processing.Processor <;>
      cases e.userProcessors <;>
      simp [Processors.AddProcessor, Processors.AddProcessors]
  · simp only [ConfigEditor.assemble, NewList]
    cases e.indexProcessor <;> cases clientCfg.Processing.Processor <;>
      cases e.userProcessors <;>
      simp [Processors.AddProcessor, Processors.AddProcessors] <;> omega
  · intro h1 h2 h3
    simp only [ConfigEditor.assemble, NewList, h1, h2]
    rcases h3 with h3 | h3 <;> simp [h3, Processors.AddProcessors]

/-- Witness of C18: the editor without index processor and user processors on a
configuration without inbound chain returns the empty chain. -/
theorem outbound_chain_length_witness :
    MapStr.holds 0 plainEventHeap plainEventCfg.Processing.Fields [("event", .str "x")] ∧
    MapStr.holds 0 plainEventHeap plainEventCfg.Processing.Meta [] ∧
    bareEditor.indexProcessor = none ∧ plainEventCfg.Processing.Processor = none ∧
    ∃ h' out procs, bareEditor.edit 1 plainEventHeap plainEventCfg = some (h', out, none) ∧
      out.Processing.Processor = some procs ∧ procs = [] ∧ procs.length = 0 := by
  obtain ⟨h', out, procs, hedit, hp, _, hlen, hnil⟩ :=
    outbound_chain_length bareEditor 1 plainEventHeap plainEventCfg [("event", .str "x")] []
      plain_holds_fields plain_holds_meta (by decide) (by decide)
  exact ⟨plain_holds_fields, plain_holds_meta, rfl, rfl, h', out, procs, hedit, hp,
    hnil rfl rfl (Or.inl rfl), by rw [hnil rfl rfl (Or.inl rfl)]; rfl⟩

end Monitors
